import Mathlib

/-!
Verification of the core infrastructure of the BaSyx AAS meta-model
(`basyx/aas/model/base.py` and `aas/backends.py`): identity value types
(`Key`, `Identifier`, `Reference`/`AASReference`), the multi-attribute
uniqueness-indexed container `NamespaceSet` (and its ordered variant), and
the `update`/`commit` synchronization protocol of `Referable` objects.

The Python object graph is embedded shallowly: objects live in a heap
(`Graph`) indexed by object identity (`Nat`); `None`-able references are
`Option Nat`; Python dicts (which preserve insertion order) are association
lists; exceptions are `Except`/`Option` error values; class-membership tests
(`isinstance`) are represented by an explicit method-resolution-order list of
class names carried by each object.
-/

namespace Basyx

/-- Model of `IdentifierType` enumeration from the source (IRDI, IRI, CUSTOM). -/
inductive IdentifierType
  | IRDI
  | IRI
  | CUSTOM
deriving DecidableEq

/-- Model of `KeyType` enumeration: type of a key value (global kinds IRDI, IRI,
CUSTOM and local kinds IDSHORT, FRAGMENT_ID). -/
inductive KeyType
  | IRDI
  | IRI
  | CUSTOM
  | IDSHORT
  | FRAGMENT_ID
deriving DecidableEq

/-- Model of `KeyType.is_local_key_type`: IDSHORT and FRAGMENT_ID are local. -/
def KeyType.is_local_key_type : KeyType → Bool
  | .IDSHORT => true
  | .FRAGMENT_ID => true
  | _ => false

/-- Model of `KeyElements` enumeration, restricted to the members the verified
operations inspect (the remaining members of the Python enum are plain
vocabulary never branched on in `base.py`). -/
inductive KeyElements
  | ASSET_ADMINISTRATION_SHELL
  | CONCEPT_DESCRIPTION
  | SUBMODEL
  | ENTITY
  | PROPERTY
  | SUBMODEL_ELEMENT
  | SUBMODEL_ELEMENT_COLLECTION
  | GLOBAL_REFERENCE
  | FRAGMENT_REFERENCE
deriving DecidableEq

/-- Immutable `Identifier` value: globally unique id and its type.
(The constructor-level non-empty check is modelled at `Key` construction,
the only place the claims build Identifiers from raw strings.) -/
structure Identifier where
  id : String
  id_type : IdentifierType
deriving DecidableEq

/-- Errors raised by value-type constructors: `ValueError` on an empty
string, `AASConstraintViolation` with its numeric constraint id. -/
inductive KeyErr
  | valueError
  | constraintViolation (constraint_id : Nat)
deriving DecidableEq

/-- Model of `LOCAL_KEY_TYPES` from the source. -/
def LOCAL_KEY_TYPES : List KeyType := [.IDSHORT, .FRAGMENT_ID]

/-- Immutable `Key`: (element-kind tag, string value, id-kind tag). -/
structure Key where
  type_ : KeyElements
  value : String
  id_type : KeyType
deriving DecidableEq

/-- Model of `Key.__init__`: rejects an empty value (ValueError), then constraint
AASd-080 (GLOBAL_REFERENCE with a local id_type) and AASd-081
(ASSET_ADMINISTRATION_SHELL with a local id_type). -/
def Key.init (type_ : KeyElements) (value : String) (id_type : KeyType) :
    Except KeyErr Key :=
  if value = "" then .error .valueError
  else if type_ = .GLOBAL_REFERENCE ∧ id_type ∈ LOCAL_KEY_TYPES then
    .error (.constraintViolation 80)
  else if type_ = .ASSET_ADMINISTRATION_SHELL ∧ id_type ∈ LOCAL_KEY_TYPES then
    .error (.constraintViolation 81)
  else .ok ⟨type_, value, id_type⟩

/-- Model of `IdentifierType(key_type.value)` for the global key types (the source
only evaluates this under a `is_local_key_type` guard). -/
def identifierTypeOfKeyType : KeyType → IdentifierType
  | .IRDI => .IRDI
  | .IRI => .IRI
  | .CUSTOM => .CUSTOM
  | .IDSHORT => .IRDI
  | .FRAGMENT_ID => .IRDI

/-- Model of `KeyType(identifier_type.value)`. -/
def keyTypeOfIdentifierType : IdentifierType → KeyType
  | .IRDI => .IRDI
  | .IRI => .IRI
  | .CUSTOM => .CUSTOM

/-- Model of `Key.get_identifier`: a derived `Identifier` for global id-kinds,
`None` for local ones. -/
def Key.get_identifier (k : Key) : Option Identifier :=
  if k.id_type.is_local_key_type then none
  else some ⟨k.value, identifierTypeOfKeyType k.id_type⟩

/-- Model of `str(identifier)`, which falls back to `Identifier.__repr__`:
`Identifier(IDTYPE=id)`. Used for the `resolved_keys` diagnostics of
`AASReference.resolve`. -/
def strIdentifier (i : Identifier) : String :=
  let tn := match i.id_type with
    | .IRDI => "IRDI"
    | .IRI => "IRI"
    | .CUSTOM => "CUSTOM"
  "Identifier(" ++ tn ++ "=" ++ i.id ++ ")"

/-- A value of an indexed attribute: either a string (folded case-insensitively
when configured) or a non-string value such as a `Reference` (represented by a
code; `_get_attribute` never case-folds non-strings). -/
inductive AttrVal
  | str (s : String)
  | refv (n : Nat)
deriving DecidableEq

/-- Python `str.upper()` on the character sequence (structural recursion so
that concrete instances evaluate; agrees with `String.toUpper` on the ASCII
identifiers the model handles). -/
def pyUpper (s : String) : String := ⟨s.data.map Char.toUpper⟩

/-- Model of `NamespaceSet._get_attribute`: case-fold (upper-case) a string attribute
value unless the attribute is configured case-sensitive; non-strings are
returned unchanged. -/
def foldVal (case_sensitive : Bool) : AttrVal → AttrVal
  | .str s => if case_sensitive then .str s else .str (pyUpper s)
  | .refv n => .refv n

/-- Association-list lookup for a backend dict keyed by folded attribute
values (Python dicts preserve insertion order; lookup finds the entry). -/
def alookup : List (AttrVal × Nat) → AttrVal → Option Nat
  | [], _ => none
  | (k, x) :: rest, k' => if k = k' then some x else alookup rest k'

/-- Deletion of a key from a backend dict (`del backend[key]`). -/
def aerase : List (AttrVal × Nat) → AttrVal → List (AttrVal × Nat)
  | [], _ => []
  | (k, x) :: rest, k' => if k = k' then rest else (k, x) :: aerase rest k'

/-- Association-list lookup keyed by attribute name
(`self._backend[attribute_name]`, `None` standing for the KeyError case). -/
def slookup {β : Type} : List (String × β) → String → Option β
  | [], _ => none
  | (k, x) :: rest, k' => if k = k' then some x else slookup rest k'

/-- One `NamespaceSet`: its `_backend` dict, mapping each indexed attribute
name to (backend dict from folded value to object, case-sensitivity flag). -/
structure NsSet where
  backend : List (String × (List (AttrVal × Nat) × Bool))
deriving DecidableEq

/-- A `Referable`-like heap object: local short name, parent link, source
locator, optional global `identification` (present exactly on Identifiables),
whether the object is a `UniqueIdShortNamespace`, its list of
`namespace_element_sets`, its method resolution order (class names, for
`isinstance` checks), further indexed attributes (`name`, `type`,
`semantic_id`, ...) and a generic data payload `v` standing for the
non-indexed, non-structural fields copied by `update_from`. -/
structure Obj where
  id_short : String
  parent : Option Nat
  source : String
  identification : Option Identifier
  isNamespace : Bool
  nsSets : List NsSet
  mro : List String
  extraAttrs : List (String × AttrVal)
  v : Nat
deriving DecidableEq

/-- Model of `getattr` on the indexed attributes: `id_short` is a field of every
modelled (Referable) object, the others live in `extraAttrs`; `none` is
the Python missing-attribute case (`hasattr` false). -/
def Obj.getattr? (o : Obj) (a : String) : Option AttrVal :=
  if a = "id_short" then some (.str o.id_short) else slookup o.extraAttrs a

deriving instance DecidableEq for Except

/-- The heap: object identities (`Nat`) to objects. -/
structure Graph where
  objs : Nat → Obj

/-- Replace the object stored at one identity. -/
def Graph.upd (g : Graph) (i : Nat) (f : Obj → Obj) : Graph :=
  ⟨fun j => if j = i then f (g.objs j) else g.objs j⟩

/-- The default (empty) `NsSet`, used where the source would raise on a
missing list index that the verified scenarios never reach. -/
def NsSet.empty : NsSet := ⟨[]⟩

/-- The sets of a namespace owner (`owner.namespace_element_sets`). -/
def Graph.sets (g : Graph) (ownerId : Nat) : List NsSet :=
  (g.objs ownerId).nsSets

/-- The set at index `si` of the owner. -/
def Graph.setAt (g : Graph) (ownerId si : Nat) : NsSet :=
  (g.sets ownerId).getD si NsSet.empty

/-- Rewrite the set at index `si` of the owner. -/
def Graph.updSet (g : Graph) (ownerId si : Nat) (f : NsSet → NsSet) : Graph :=
  g.upd ownerId fun o => { o with nsSets := o.nsSets.set si (f (o.nsSets.getD si NsSet.empty)) }

/-- Model of `NamespaceSet.contains_id`: look up the attribute dict by name (`False`
if the set does not track the attribute), then check membership of the
folded identifier (case-folding only for strings under a case-insensitive
configuration). -/
def NsSet.contains_id (s : NsSet) (attribute_name : String) (identifier : AttrVal) : Bool :=
  match slookup s.backend attribute_name with
  | none => false
  | some (backend, case_sensitive) => (alookup backend (foldVal case_sensitive identifier)).isSome

/-- Model of `NamespaceSet.get_attribute_name_list` membership test
(`attr in set.get_attribute_name_list()`). -/
def NsSet.tracks (s : NsSet) (a : String) : Bool :=
  s.backend.any fun p => p.1 = a

/-- Model of `NamespaceSet.get_object_by_attribute` made total: `none` is the KeyError
case (attribute not tracked, or folded value missing from the dict). -/
def NsSet.get_object_by_attribute? (s : NsSet) (attribute_name : String)
    (attribute_value : AttrVal) : Option Nat :=
  match slookup s.backend attribute_name with
  | none => none
  | some (backend, case_sensitive) => alookup backend (foldVal case_sensitive attribute_value)

/-- Model of `Namespace._get_object`: return the object from the first set whose
lookup succeeds (`KeyError`s are swallowed and the scan continues). -/
def Graph.get_object? (g : Graph) (ownerId : Nat) (attribute_name : String)
    (attribute_value : AttrVal) : Option Nat :=
  (g.sets ownerId).findSome? fun s => s.get_object_by_attribute? attribute_name attribute_value

/-- Model of `UniqueIdShortNamespace.get_referable` (`None` = KeyError). -/
def Graph.get_referable? (g : Graph) (ownerId : Nat) (id_short : String) : Option Nat :=
  g.get_object? ownerId "id_short" (.str id_short)

/-- Errors of the mutating `NamespaceSet` operations. -/
inductive NssErr
  | collision (attr_name : String) (value : AttrVal)
  | valueErrorParent
  | attributeError (attr_name : String)
  | keyErrorDict
  | notFoundInSet
deriving DecidableEq

/-- One attribute check of the collision scan of `NamespaceSet.add`: when
the candidate member carries the attribute and its folded value is already
indexed, report the attribute name and the raw, unfolded value. -/
def scanCollisionAttr (m : Obj) (p : String × (List (AttrVal × Nat) × Bool)) :
    Option (String × AttrVal) :=
  match m.getattr? p.1 with
  | none => none
  | some val => if (alookup p.2.1 (foldVal p.2.2 val)).isSome then some (p.1, val) else none

/-- The collision scan of `NamespaceSet.add`: over every sibling set of the
owner and every attribute it tracks, report the first attribute whose folded
value for `value` is already indexed (the raised KeyError names the attribute
and the raw, unfolded value). -/
def scanCollision (sets : List NsSet) (m : Obj) : Option (String × AttrVal) :=
  sets.findSome? fun s => s.backend.findSome? (scanCollisionAttr m)

/-- Whether `NamespaceSet.add` would report a collision for the candidate
member against the sibling sets of the owner. -/
def addCollides (g : Graph) (ownerId mId : Nat) : Bool :=
  (g.sets ownerId).any fun s => s.backend.any fun p =>
    match (g.objs mId).getattr? p.1 with
    | none => false
    | some val => (alookup p.2.1 (foldVal p.2.2 val)).isSome

/-- The insertion loop of `NamespaceSet.add`: extend each attribute dict of
this set with the folded value of the new member. A missing attribute stops
the loop (AttributeError), leaving earlier insertions in place, exactly as
the uncaught Python exception would. -/
def insertAll (m : Obj) (mId : Nat) :
    List (String × (List (AttrVal × Nat) × Bool)) →
    List (String × (List (AttrVal × Nat) × Bool)) × Option NssErr
  | [] => ([], none)
  | (a, (backend, cs)) :: rest =>
    match m.getattr? a with
    | none => ((a, (backend, cs)) :: rest, some (.attributeError a))
    | some val =>
      let r := insertAll m mId rest
      ((a, (backend ++ [(foldVal cs val, mId)], cs)) :: r.1, r.2)

/-- Model of `NamespaceSet.add(value)`: scan all sibling sets of the owner for an
attribute collision; reject a member that already has a different parent
namespace; otherwise set the parent of the member to the owner and insert it
under every attribute this set tracks. Returns the (possibly partially)
mutated heap together with the raised error, if any. -/
def NamespaceSet.add (g : Graph) (ownerId si mId : Nat) : Graph × Option NssErr :=
  let m := g.objs mId
  match scanCollision (g.sets ownerId) m with
  | some (a, val) => (g, some (.collision a val))
  | none =>
    if m.parent ≠ none ∧ m.parent ≠ some ownerId then (g, some .valueErrorParent)
    else
      let g1 := g.upd mId fun o => { o with parent := some ownerId }
      let s := g1.setAt ownerId si
      let r := insertAll (g1.objs mId) mId s.backend
      (g1.updSet ownerId si fun _ => ⟨r.1⟩, r.2)

/-- The identity scan of `NamespaceSet.remove`: walk every tracked attribute;
a folded key missing from its dict raises KeyError; the item counts as found
if some dict maps its folded key to this very object. -/
def removeScan (m : Obj) (mId : Nat) :
    List (String × (List (AttrVal × Nat) × Bool)) → Except NssErr Bool
  | [] => .ok false
  | (a, (backend, cs)) :: rest =>
    match m.getattr? a with
    | none => .error (.attributeError a)
    | some val =>
      match alookup backend (foldVal cs val) with
      | none => .error .keyErrorDict
      | some j => (removeScan m mId rest).map fun b => b || j = mId

/-- Model of `NamespaceSet.remove(item)`: verify the item is indexed as itself under
some tracked attribute, clear its parent, then delete its folded keys from
every tracked attribute dict. -/
def NamespaceSet.remove (g : Graph) (ownerId si mId : Nat) : Graph × Option NssErr :=
  let m := g.objs mId
  let s := g.setAt ownerId si
  match removeScan m mId s.backend with
  | .error e => (g, some e)
  | .ok false => (g, some .notFoundInSet)
  | .ok true =>
    let g1 := g.upd mId fun o => { o with parent := none }
    let m1 := g1.objs mId
    (g1.updSet ownerId si fun s1 =>
      ⟨s1.backend.map fun p =>
        match m1.getattr? p.1 with
        | none => p
        | some val => (p.1, (aerase p.2.1 (foldVal p.2.2 val), p.2.2))⟩, none)

/-- Model of `NamespaceSet.__contains__`: identity check against the first tracked
attribute dict only. -/
def NsSet.containsObj (s : NsSet) (m : Obj) (mId : Nat) : Bool :=
  match s.backend with
  | [] => false
  | (a, (backend, cs)) :: _ =>
    match m.getattr? a with
    | none => false
    | some val => alookup backend (foldVal cs val) = some mId

/-- Model of `NamespaceSet.discard(x)`: no-op when `x` is not a member (membership via
`__contains__`), else `remove`. -/
def NamespaceSet.discard (g : Graph) (ownerId si mId : Nat) : Graph × Option NssErr :=
  if (g.setAt ownerId si).containsObj (g.objs mId) mId then
    NamespaceSet.remove g ownerId si mId
  else (g, none)

/-- Model of `NamespaceSet.clear`: reset the parent of every member of every tracked
attribute dict, then empty all the dicts. -/
def NamespaceSet.clear (g : Graph) (ownerId si : Nat) : Graph :=
  let s := g.setAt ownerId si
  let ids := (s.backend.map fun p => p.2.1.map Prod.snd).flatten
  let g1 := ids.foldl (fun (h : Graph) j => h.upd j fun o => { o with parent := none }) g
  g1.updSet ownerId si fun s1 => ⟨s1.backend.map fun p => (p.1, ([], p.2.2))⟩

/-- The item loop of `NamespaceSet.__init__`: add the initial items one by
one; the first exception triggers `clear()` (full rollback) and propagates. -/
def nssInitLoop (g : Graph) (ownerId si : Nat) : List Nat → Graph × Option NssErr
  | [] => (g, none)
  | m :: rest =>
    match NamespaceSet.add g ownerId si m with
    | (g', none) => nssInitLoop g' ownerId si rest
    | (g', some e) => (NamespaceSet.clear g' ownerId si, some e)

/-- Model of `NamespaceSet.__init__`: register the fresh (empty) set in the owner's
`namespace_element_sets`, then bulk-insert the initial items with rollback on
failure. Returns the heap, the index of the new set, and the error, if any. -/
def NamespaceSet.init (g : Graph) (ownerId : Nat) (attribute_names : List (String × Bool))
    (items : List Nat) : Graph × Nat × Option NssErr :=
  let si := (g.sets ownerId).length
  let g1 := g.upd ownerId fun o =>
    { o with nsSets := o.nsSets ++ [⟨attribute_names.map fun p => (p.1, ([], p.2))⟩] }
  let r := nssInitLoop g1 ownerId si items
  (r.1, si, r.2)

/-- Errors of `Referable._set_id_short`: constraint violations (with their
numeric id), the name-collision KeyError, and any propagated set error. -/
inductive SetIdErr
  | constraintViolation (constraint_id : Nat)
  | keyErrorCollision (id_short : String)
  | nssError (e : NssErr)
deriving DecidableEq

/-- Model of `re.fullmatch("[a-zA-Z0-9_]*", s)`. -/
def idShortChars (s : String) : Bool :=
  s.toList.all fun c => c.isAlpha || c.isDigit || c = '_'

/-- Model of `Referable._set_id_short` (the `id_short` property setter): no-op on an
unchanged value; constraint 100 on the empty string; constraint 2 on a bad
character or a non-letter first character; if the object has a parent, check
no set of the parent already contains the new value (KeyError), then detach
the object from every set currently containing it, mutate the backing field,
and re-attach; finally (re)write the backing field. -/
def Referable.set_id_short (g : Graph) (i : Nat) (id_short : String) :
    Graph × Option SetIdErr :=
  let o := g.objs i
  if id_short = o.id_short then (g, none)
  else if id_short = "" then (g, some (.constraintViolation 100))
  else if ¬ idShortChars id_short then (g, some (.constraintViolation 2))
  else if ¬ (id_short.toList.headD 'a').isAlpha then (g, some (.constraintViolation 2))
  else
    match o.parent with
    | none => (g.upd i fun ob => { ob with id_short := id_short }, none)
    | some p =>
      if (g.sets p).any (fun s => s.contains_id "id_short" (.str id_short)) then
        (g, some (.keyErrorCollision id_short))
      else
        let detach := (List.range (g.sets p).length).foldl
          (fun (acc : Graph × List Nat) si =>
            if (acc.1.setAt p si).containsObj (acc.1.objs i) i then
              ((NamespaceSet.discard acc.1 p si i).1, acc.2 ++ [si])
            else acc) (g, [])
        let g2 := detach.1.upd i fun ob => { ob with id_short := id_short }
        let re := detach.2.foldl
          (fun (acc : Graph × Option SetIdErr) si =>
            match acc.2 with
            | some _ => acc
            | none =>
              match NamespaceSet.add acc.1 p si i with
              | (h, none) => (h, none)
              | (h, some e) => (h, some (.nssError e))) (g2, none)
        match re.2 with
        | some e => (re.1, some e)
        | none => (re.1.upd i (fun ob => { ob with id_short := id_short }), none)

/-- The scalar part of `Referable.update_from(other, update_source=True)`: every
instance attribute of `other` that is not a `NamespaceSet` and not `parent`
or `namespace_element_sets` is copied over (`update_source=True` also copies
`source`). In this model these are `id_short`, `source`, `identification`,
the further indexed attributes, and the data payload `v`. -/
def mergeScalars (o ot : Obj) : Obj :=
  { o with id_short := ot.id_short, source := ot.source,
           identification := ot.identification, extraAttrs := ot.extraAttrs, v := ot.v }

/-- Iteration over a `NamespaceSet` (`__iter__`): the values of the first
tracked attribute dict, in insertion order. -/
def NsSet.memberIds (s : NsSet) : List Nat :=
  match s.backend with
  | [] => []
  | (_, (backend, _)) :: _ => backend.map Prod.snd

/-- Errors of `NamespaceSet.update_nss_from` (`outOfFuel` is the artificial
bound of the embedding on the nested-set recursion depth). -/
inductive UnfErr
  | typeErrorKind
  | attributeError (attr_name : String)
  | nssError (e : NssErr)
  | outOfFuel
deriving DecidableEq

/-- The attribute loop of `Referable.update_from(other, update_source=True)`,
parameterized by the recursive reconciliation used for `NamespaceSet`-valued
attributes: the scalar attributes of `other` are copied, then each
`NamespaceSet`-valued attribute of `other` — positionally paired with the
same-named set of `self`, the two objects being of similar type — is
reconciled in place via `update_nss_from`. -/
def updFromWith (reconcile : Graph → Nat → Nat → Nat → Nat → Except UnfErr Graph)
    (g : Graph) (selfId otherId : Nat) : Except UnfErr Graph :=
  let ot := g.objs otherId
  (List.range ot.nsSets.length).foldlM
    (fun h si => reconcile h selfId si otherId si)
    (g.upd selfId fun o => mergeScalars o ot)

/-- First phase of `update_nss_from`, parameterized by the `update_from`
merge: walk the members of `other`; a `Referable` matched in the `id_short` index
of this set (case-folded) is merged in place via
`update_from(·, update_source=True)`; a matched `Qualifier` (`type` index) or
`Extension` (`name` index) is only detected; a member whose lookup raises
KeyError (untracked attribute or missing value) is collected for the move
phase; any other kind raises TypeError. -/
def unfPhase1With (upd : Graph → Nat → Nat → Except UnfErr Graph)
    (selfOwner selfSi : Nat) : Graph → List Nat → Except UnfErr (Graph × List Nat)
  | g, [] => .ok (g, [])
  | g, oo :: rest =>
    let m := g.objs oo
    let selfSet := g.setAt selfOwner selfSi
    let outcome : Except UnfErr (Graph × Bool) :=
      if "Referable" ∈ m.mro then
        match slookup selfSet.backend "id_short" with
        | none => .ok (g, false)
        | some (backend, cs) =>
          match alookup backend (foldVal cs (.str m.id_short)) with
          | none => .ok (g, false)
          | some matched =>
            match upd g matched oo with
            | .error e => .error e
            | .ok g2 => .ok (g2, true)
      else if "Qualifier" ∈ m.mro then
        match m.getattr? "type" with
        | none => .error (.attributeError "type")
        | some val =>
          match slookup selfSet.backend "type" with
          | none => .ok (g, false)
          | some (backend, cs) => .ok (g, (alookup backend (foldVal cs val)).isSome)
      else if "Extension" ∈ m.mro then
        match m.getattr? "name" with
        | none => .error (.attributeError "name")
        | some val =>
          match slookup selfSet.backend "name" with
          | none => .ok (g, false)
          | some (backend, cs) => .ok (g, (alookup backend (foldVal cs val)).isSome)
      else .error .typeErrorKind
    match outcome with
    | .error e => .error e
    | .ok (g', hit) =>
      match unfPhase1With upd selfOwner selfSi g' rest with
      | .error e => .error e
      | .ok r => .ok (r.1, (if hit then [] else [oo]) ++ r.2)

/-- Second phase of `update_nss_from`: for every attribute tracked by both
sets, every member of this set whose folded value is absent from the other
dict of that attribute in the other set is collected for removal. -/
def unfToRemove (g : Graph) (selfOwner selfSi otherOwner otherSi : Nat) : List Nat :=
  let selfSet := g.setAt selfOwner selfSi
  let otherSet := g.setAt otherOwner otherSi
  (selfSet.backend.map fun p =>
    ((otherSet.backend.filter fun q => q.1 = p.1).map fun q =>
      (p.2.1.map Prod.snd).filter fun item =>
        match (g.objs item).getattr? p.1 with
        | none => false
        | some val => (alookup q.2.1 (foldVal p.2.2 val)).isNone).flatten).flatten

/-- One step of the move phase of `update_nss_from`: `other.remove(o)` then
`self.add(o)` on one collected unmatched member of `other`, either raised
error propagating. -/
def unfMoveStep (otherOwner otherSi selfOwner selfSi : Nat) (h : Graph) (oa : Nat) :
    Except UnfErr Graph :=
  match NamespaceSet.remove h otherOwner otherSi oa with
  | (_, some e) => .error (.nssError e)
  | (h1, none) =>
    match NamespaceSet.add h1 selfOwner selfSi oa with
    | (_, some e) => .error (.nssError e)
    | (h2, none) => .ok h2

/-- One step of the removal phase of `update_nss_from`: `self.remove(o)` on
one member of this set without a counterpart in `other`. -/
def unfRemoveStep (selfOwner selfSi : Nat) (h : Graph) (orm : Nat) :
    Except UnfErr Graph :=
  match NamespaceSet.remove h selfOwner selfSi orm with
  | (_, some e) => .error (.nssError e)
  | (h1, none) => .ok h1

/-- Model of `NamespaceSet.update_nss_from(other)`, fuel-indexed because
`update_from` on a matched member recurses back into `update_nss_from` for
each nested `NamespaceSet`-valued attribute: merge matched members in place,
move (`other.remove` then `self.add`) each unmatched member of `other` into
this set, and remove each member of this set with no corresponding folded
value in `other`. Matched members of `other` are never removed from `other`. -/
def updateNssFromFuel : Nat → Graph → Nat → Nat → Nat → Nat → Except UnfErr Graph
  | 0, _, _, _, _, _ => .error .outOfFuel
  | fuel + 1, g, selfOwner, selfSi, otherOwner, otherSi =>
    let otherItems := (g.setAt otherOwner otherSi).memberIds
    match unfPhase1With
        (updFromWith fun h a b c d => updateNssFromFuel fuel h a b c d)
        selfOwner selfSi g otherItems with
    | .error e => .error e
    | .ok r1 =>
      let toRemove := unfToRemove r1.1 selfOwner selfSi otherOwner otherSi
      match r1.2.foldlM (unfMoveStep otherOwner otherSi selfOwner selfSi) r1.1 with
      | .error e => .error e
      | .ok g2 =>
        toRemove.foldlM (unfRemoveStep selfOwner selfSi) g2

/-- The nested-set recursion depth supply of the embedding: any bound deep
enough for the verified object graphs. -/
def unfFuelSupply : Nat := 100

/-- Model of `Referable.update_from(other, update_source=True)`: copy every
non-`NamespaceSet` instance attribute of `other` except `parent` and
`namespace_element_sets`, and reconcile every `NamespaceSet`-valued attribute
of `other` in place via `update_nss_from` on the same-named set of `self`. -/
def Referable.update_from (g : Graph) (selfId otherId : Nat) : Except UnfErr Graph :=
  updFromWith (fun h a b c d => updateNssFromFuel unfFuelSupply h a b c d) g selfId otherId

/-- Model of `NamespaceSet.update_nss_from(other)` at the standing fuel supply. -/
def NamespaceSet.update_nss_from (g : Graph)
    (selfOwner selfSi otherOwner otherSi : Nat) : Except UnfErr Graph :=
  updateNssFromFuel (unfFuelSupply + 1) g selfOwner selfSi otherOwner otherSi

/-- Python `list.insert(i, x)` for a non-negative index (clamped at the
length). -/
def pyInsertList {α : Type} (l : List α) (i : Nat) (x : α) : List α :=
  l.take i ++ [x] ++ l.drop i

/-- Model of `OrderedNamespaceSet.add`: base add, then append to `_order`. The state
is (heap, `_order` list of the one ordered set under scrutiny). -/
def OrderedNamespaceSet.add (st : Graph × List Nat) (ownerId si mId : Nat) :
    (Graph × List Nat) × Option NssErr :=
  match NamespaceSet.add st.1 ownerId si mId with
  | (g', none) => ((g', st.2 ++ [mId]), none)
  | (g', some e) => ((g', st.2), some e)

/-- Model of `OrderedNamespaceSet.insert(index, object)`: base add (same validation),
then place at `index` in `_order`. -/
def OrderedNamespaceSet.insert (st : Graph × List Nat) (ownerId si idx mId : Nat) :
    (Graph × List Nat) × Option NssErr :=
  match NamespaceSet.add st.1 ownerId si mId with
  | (g', none) => ((g', pyInsertList st.2 idx mId), none)
  | (g', some e) => ((g', st.2), some e)

/-- Model of `OrderedNamespaceSet.__getitem__` with an `int` index (`none` =
IndexError). -/
def OrderedNamespaceSet.getitem? (st : Graph × List Nat) (i : Nat) : Option Nat :=
  st.2[i]?

/-- The add loop of slice `__setitem__`: add the replacement items one by
one; on failure, report the items added so far (for the rollback). -/
def onssAddLoop (g : Graph) (ownerId si : Nat) : List Nat → Graph × List Nat × Option NssErr
  | [] => (g, [], none)
  | m :: rest =>
    match NamespaceSet.add g ownerId si m with
    | (g', none) =>
      let r := onssAddLoop g' ownerId si rest
      (r.1, m :: r.2.1, r.2.2)
    | (g', some e) => (g', [], some e)

/-- Model of `OrderedNamespaceSet.__setitem__` with an `int` index: remember the
replaced entry, base-add the new one, overwrite the `_order` slot, then
base-remove the replaced entry. -/
def OrderedNamespaceSet.setItem (st : Graph × List Nat) (ownerId si i mId : Nat) :
    (Graph × List Nat) × Option NssErr :=
  match st.2[i]? with
  | none => (st, some .keyErrorDict)
  | some old =>
    match NamespaceSet.add st.1 ownerId si mId with
    | (g', some e) => ((g', st.2), some e)
    | (g', none) =>
      let ord1 := st.2.set i mId
      let rem := NamespaceSet.remove g' ownerId si old
      ((rem.1, ord1), rem.2)

/-- Model of `OrderedNamespaceSet.__setitem__` with a (simple, non-negative) slice
`start:stop`: take at most `len(deleted)` replacement items (`islice`),
base-add them all (rolling the additions back if one fails), assign the
now-exhausted `islice` iterator to the `_order` slice — which therefore
replaces the slice with *nothing* — and finally base-remove the replaced
entries. -/
def OrderedNamespaceSet.setSlice (st : Graph × List Nat) (ownerId si start stop : Nat)
    (items : List Nat) : (Graph × List Nat) × Option NssErr :=
  let deleted := (st.2.drop start).take (stop - start)
  let taken := items.take deleted.length
  let al := onssAddLoop st.1 ownerId si taken
  match al.2.2 with
  | some e =>
    let roll := al.2.1.foldl
      (fun (acc : Graph × Option NssErr) m =>
        match acc.2 with
        | some _ => acc
        | none => NamespaceSet.remove acc.1 ownerId si m) (al.1, none)
    ((roll.1, st.2), some (roll.2.getD e))
  | none =>
    let ord1 := st.2.take start ++ st.2.drop stop
    let fin := deleted.foldl
      (fun (acc : Graph × Option NssErr) d =>
        match acc.2 with
        | some _ => acc
        | none => NamespaceSet.remove acc.1 ownerId si d) (al.1, none)
    match fin.2 with
    | some e => ((fin.1, st.2), some e)
    | none => ((fin.1, ord1), none)

/-- Model of `OrderedNamespaceSet.__delitem__` with a (simple, non-negative) slice:
base-remove every entry of the slice, then delete the slice from `_order`. -/
def OrderedNamespaceSet.delSlice (st : Graph × List Nat) (ownerId si start stop : Nat) :
    (Graph × List Nat) × Option NssErr :=
  let doomed := (st.2.drop start).take (stop - start)
  let fin := doomed.foldl
    (fun (acc : Graph × Option NssErr) d =>
      match acc.2 with
      | some _ => acc
      | none => NamespaceSet.remove acc.1 ownerId si d) (st.1, none)
  match fin.2 with
  | some e => ((fin.1, st.2), some e)
  | none => ((fin.1, st.2.take start ++ st.2.drop stop), none)

/-- Errors of the backend registry and of the synchronization protocol
(`outOfFuel` is the stand-in of the embedding for non-termination on a cyclic
parent chain, which the verified scenarios exclude). -/
inductive BackErr
  | valueErrorScheme (url : String)
  | keyErrorScheme (scheme : String)
  | outOfFuel
deriving DecidableEq

/-- A character of the scheme tail in `RE_URI_SCHEME`
(`[a-zA-Z+\-\.]`). -/
def isSchemeTailChar (c : Char) : Bool :=
  c.isAlpha || c = '+' || c = '-' || c = '.'

/-- Model of `RE_URI_SCHEME.match(url)`: a leading letter, a run of scheme-tail
characters, then a colon; returns the captured scheme. -/
def matchScheme (url : String) : Option String :=
  match url.toList with
  | [] => none
  | c :: rest =>
    if c.isAlpha then
      let run := rest.takeWhile isSchemeTailChar
      match rest.drop run.length with
      | ':' :: _ => some (String.mk (c :: run))
      | _ => none
    else none

/-- Model of `backends.get_backend(url)`: extract the scheme (ValueError when the URL
has none) and look it up in the process-wide registry (KeyError when
unregistered). Backends are identified by name. -/
def get_backend (reg : List (String × String)) (url : String) : Except BackErr String :=
  match matchScheme url with
  | none => .error (.valueErrorScheme url)
  | some scheme =>
    match slookup reg scheme with
    | none => .error (.keyErrorScheme scheme)
    | some b => .ok b

/-- The two backend operations. -/
inductive BOp
  | commitObject
  | updateObject
deriving DecidableEq

/-- One backend invocation: `backend.commit_object`/`update_object` with
`(committed/updated object, store object, relative path)`. -/
structure Event where
  backend : String
  op : BOp
  obj : Nat
  store : Nat
  relative_path : List String
deriving DecidableEq

/-- The children visited by the recursive parts of `update`/`commit`: for
every `namespace_element_set` tracking `id_short`, the members in set
iteration order. -/
def childIds (o : Obj) : List Nat :=
  ((o.nsSets.filter fun s => s.tracks "id_short").map NsSet.memberIds).flatten

/-- The ancestor walk of `Referable.commit`: starting at the parent with
`relative_path = [self.id_short]`, emit a `commit_object` invocation on
every ancestor with a non-empty source (relative path as accumulated so
far), then prepend the `id_short` of the ancestor to the path and continue
upward. -/
def commitAncestors (g : Graph) (reg : List (String × String)) (selfId : Nat) :
    Nat → Option Nat → List String → Except BackErr (List Event)
  | _, none, _ => .ok []
  | 0, some _, _ => .error .outOfFuel
  | fuel + 1, some anc, relative_path =>
    let o := g.objs anc
    if o.source ≠ "" then
      match get_backend reg o.source with
      | .error e => .error e
      | .ok b =>
        match commitAncestors g reg selfId fuel o.parent (o.id_short :: relative_path) with
        | .error e => .error e
        | .ok rest => .ok (⟨b, .commitObject, selfId, anc, relative_path⟩ :: rest)
    else
      commitAncestors g reg selfId fuel o.parent (o.id_short :: relative_path)

/-- The shared own-source recursion: `Referable._direct_source_commit`
(`op = commitObject`), and identically the `_indirect_source=False` child
updates of `Referable.update` (`op = updateObject`). Each visited object
invokes the backend of its own source — only when that source is non-empty,
with itself as store object and an empty relative path — and then recurses
depth-first into its `id_short`-indexed children. -/
def directSourceTrace (g : Graph) (reg : List (String × String)) (op : BOp) :
    Nat → List Nat → Except BackErr (List Event)
  | _, [] => .ok []
  | 0, _ :: _ => .error .outOfFuel
  | fuel + 1, i :: rest =>
    let o := g.objs i
    let own : Except BackErr (List Event) :=
      if o.source ≠ "" then
        match get_backend reg o.source with
        | .error e => .error e
        | .ok b => .ok [⟨b, op, i, i, []⟩]
      else .ok []
    match own with
    | .error e => .error e
    | .ok ownEvs =>
      match directSourceTrace g reg op fuel (if o.isNamespace then childIds o else []) with
      | .error e => .error e
      | .ok sub =>
        match directSourceTrace g reg op fuel rest with
        | .error e => .error e
        | .ok tail => .ok (ownEvs ++ sub ++ tail)

/-- Model of `Referable.commit()`: commit to every ancestor with a non-empty source
(growing relative path), then perform the own-source commit recursion on
this object itself. The result is the sequence of backend invocations. -/
def Referable.commit (g : Graph) (reg : List (String × String)) (fuel i : Nat) :
    Except BackErr (List Event) :=
  match commitAncestors g reg i fuel (g.objs i).parent [(g.objs i).id_short] with
  | .error e => .error e
  | .ok anc =>
    match directSourceTrace g reg .commitObject fuel [i] with
    | .error e => .error e
    | .ok dir => .ok (anc ++ dir)

/-- Model of `Referable.find_source()`: walk `parent` links upward (starting with the
object itself and `relative_path = [self.id_short]`, each step appending the
`id_short` of the parent); on the first non-empty source return that ancestor and
the reversed path; `none` when no ancestor has a source. -/
def Referable.find_source (g : Graph) :
    Nat → Nat → List String → Option (Nat × List String)
  | 0, _, _ => none
  | fuel + 1, i, relative_path =>
    let o := g.objs i
    if o.source ≠ "" then some (i, relative_path.reverse)
    else
      match o.parent with
      | some p => Referable.find_source g fuel p (relative_path ++ [(g.objs p).id_short])
      | none => none

/-- Model of `Referable.update(max_age, recursive=True)` (the public call, i.e.
`_indirect_source=True`): update from the own source when non-empty (store =
self, empty path), otherwise from the nearest ancestor source found by
`find_source` (store = that ancestor, path from it down to self); then every
`id_short`-indexed child is visited with `_indirect_source=False`, so each
child (and descendant) updates only from its *own* non-empty source. -/
def Referable.update (g : Graph) (reg : List (String × String)) (fuel i : Nat) :
    Except BackErr (List Event) :=
  let o := g.objs i
  let own : Except BackErr (List Event) :=
    if o.source ≠ "" then
      match get_backend reg o.source with
      | .error e => .error e
      | .ok b => .ok [⟨b, .updateObject, i, i, []⟩]
    else
      match Referable.find_source g fuel i [o.id_short] with
      | some (st, path) =>
        match get_backend reg (g.objs st).source with
        | .error e => .error e
        | .ok b => .ok [⟨b, .updateObject, i, st, path⟩]
      | none => .ok []
  match own with
  | .error e => .error e
  | .ok ownEvs =>
    match directSourceTrace g reg .updateObject fuel
        (if o.isNamespace then childIds o else []) with
    | .error e => .error e
    | .ok kids => .ok (ownEvs ++ kids)

/-- The first class of a method resolution order contained in
`KEY_ELEMENTS_CLASSES` (the package-level class-to-`KeyElements` table,
passed as the parameter `kec`). -/
def firstKeyElementsClass (kec : String → Option KeyElements) (mro : List String) :
    Option String :=
  mro.find? fun t => (kec t).isSome

/-- Model of `Key.from_referable`: the element-kind tag is the `KEY_ELEMENTS_CLASSES`
entry of the first matching base class (default `PROPERTY`); an
`Identifiable` yields a global key from its `identification`, any other
`Referable` a local `IDSHORT` key from its `id_short`. -/
def Key.from_referable (kec : String → Option KeyElements) (g : Graph) (i : Nat) :
    Except KeyErr Key :=
  let o := g.objs i
  let key_type := ((firstKeyElementsClass kec o.mro).bind kec).getD .PROPERTY
  match o.identification with
  | some ident => Key.init key_type ident.id (keyTypeOfIdentifierType ident.id_type)
  | none => Key.init key_type o.id_short .IDSHORT

/-- A typed reference: the ordered key list plus the expected target kind
(a class name; `isinstance` is membership in the mro of the target). -/
structure AASRef where
  key : List Key
  type_ : String
deriving DecidableEq

/-- Errors of `AASReference.from_referable`. -/
inductive FromRefErr
  | keyError (e : KeyErr)
  | valueErrorNotEmbedded
  | outOfFuel
deriving DecidableEq

/-- The key-collecting loop of `AASReference.from_referable`: append the key
of the current object; stop (reversing the keys) at an `Identifiable`;
otherwise step to the parent, failing when there is none or it is not a
`Referable`. -/
def fromReferableLoop (kec : String → Option KeyElements) (g : Graph) :
    Nat → Nat → List Key → Except FromRefErr (List Key)
  | 0, _, _ => .error .outOfFuel
  | fuel + 1, ref, keys =>
    match Key.from_referable kec g ref with
    | .error e => .error (.keyError e)
    | .ok k =>
      let keys := keys ++ [k]
      if (g.objs ref).identification.isSome then .ok keys.reverse
      else
        match (g.objs ref).parent with
        | none => .error .valueErrorNotEmbedded
        | some p =>
          if "Referable" ∈ (g.objs p).mro then fromReferableLoop kec g fuel p keys
          else .error .valueErrorNotEmbedded

/-- Model of `AASReference.from_referable`: the reference type is the first base
class found in `KEY_ELEMENTS_CLASSES` (default `Referable`); the keys come
from walking the parent chain up to the first `Identifiable`. -/
def AASReference.from_referable (kec : String → Option KeyElements) (g : Graph)
    (fuel i : Nat) : Except FromRefErr AASRef :=
  let ref_type := (firstKeyElementsClass kec (g.objs i).mro).getD "Referable"
  (fromReferableLoop kec g fuel i []).map fun ks => ⟨ks, ref_type⟩

/-- Errors of `AASReference.resolve`. -/
inductive ResolveErr
  | indexError
  | notImplementedLocalOnly
  | keyErrorIdentifier (identifier : Identifier)
  | typeErrorNotNamespace (resolved_keys : List String)
  | keyErrorIdShort (id_short : String) (resolved_keys : List String)
  | unexpectedType (value : Nat)
deriving DecidableEq

/-- The index of the last key with a global identifier
(`next(i for i in reversed(range(len(key))) if key[i].get_identifier())`). -/
def lastIdentifierIndex : List Key → Option Nat
  | [] => none
  | k :: rest =>
    match lastIdentifierIndex rest with
    | some i => some (i + 1)
    | none => if k.get_identifier.isSome then some 0 else none

/-- A default key for total list indexing (never reached on the paths the
source can take). -/
def dKey : Key := ⟨.SUBMODEL, "none", .IRI⟩

/-- The path walk of `AASReference.resolve` over the keys after the located
identifier key: the current element must be a `UniqueIdShortNamespace`
(TypeError naming the `resolved_keys` diagnostics otherwise), and the next
element is looked up by `get_referable(key.value)` (KeyError naming the key
value and `resolved_keys` when missing). The source never appends to
`resolved_keys` inside the loop, so it stays at the single identifier
entry. -/
def resolveWalk (g : Graph) : List Key → Nat → List String → Except ResolveErr Nat
  | [], item, _ => .ok item
  | k :: rest, item, resolved_keys =>
    if ¬ (g.objs item).isNamespace then .error (.typeErrorNotNamespace resolved_keys)
    else
      match g.get_referable? item k.value with
      | none => .error (.keyErrorIdShort k.value resolved_keys)
      | some nxt => resolveWalk g rest nxt resolved_keys

/-- Model of `AASReference.resolve(provider)`: IndexError on an empty key list; find
the last global identifier key (NotImplementedError when none); ask the
provider (KeyError carrying the identifier on a miss); walk the remaining
keys; finally check the result against the declared target kind
(UnexpectedTypeError carrying the mis-typed element). -/
def AASReference.resolve (g : Graph) (provider : Identifier → Option Nat)
    (r : AASRef) : Except ResolveErr Nat :=
  if r.key.length = 0 then .error .indexError
  else
    match lastIdentifierIndex r.key with
    | none => .error .notImplementedLocalOnly
    | some li =>
      match (r.key.getD li dKey).get_identifier with
      | none => .error .notImplementedLocalOnly
      | some identifier =>
        match provider identifier with
        | none => .error (.keyErrorIdentifier identifier)
        | some item =>
          match resolveWalk g (r.key.drop (li + 1)) item [strIdentifier identifier] with
          | .error e => .error e
          | .ok final =>
            if r.type_ ∈ (g.objs final).mro then .ok final
            else .error (.unexpectedType final)

/-- The element-kind tag `Key.from_referable` derives for an object: the
`KEY_ELEMENTS_CLASSES` entry of the first matching base class, default
`PROPERTY`. -/
def keyElementOf (kec : String → Option KeyElements) (o : Obj) : KeyElements :=
  ((firstKeyElementsClass kec o.mro).bind kec).getD .PROPERTY

/-- The key `Key.from_referable` produces for an object on a successful
construction (global key from `identification` for an Identifiable, local
`IDSHORT` key otherwise). -/
def keyOfNode (kec : String → Option KeyElements) (g : Graph) (i : Nat) : Key :=
  let o := g.objs i
  match o.identification with
  | some ident => ⟨keyElementOf kec o, ident.id, keyTypeOfIdentifierType ident.id_type⟩
  | none => ⟨keyElementOf kec o, o.id_short, .IDSHORT⟩

/-- A parent chain `[e, p1, ..., root]` (leaf first) along which the C1
round trip is claimed: every link is a non-Identifiable child whose
`id_short` resolves to itself inside its parent (an `id_short`-indexed
`Referable` Namespace) and whose key is constructible, ending in an
Identifiable root with a non-empty identifier. -/
def upChainB (kec : String → Option KeyElements) (g : Graph) : List Nat → Bool
  | [] => false
  | [r] =>
    match (g.objs r).identification with
    | none => false
    | some ident => decide (ident.id ≠ "")
  | c :: p :: rest =>
    decide ((g.objs c).identification = none) &&
    decide ((g.objs c).parent = some p) &&
    decide ("Referable" ∈ (g.objs p).mro) &&
    (g.objs p).isNamespace &&
    decide (Graph.get_referable? g p (g.objs c).id_short = some c) &&
    decide ((g.objs c).id_short ≠ "") &&
    decide (keyElementOf kec (g.objs c) ≠ .GLOBAL_REFERENCE) &&
    decide (keyElementOf kec (g.objs c) ≠ .ASSET_ADMINISTRATION_SHELL) &&
    upChainB kec g (p :: rest)

/-- The C3 claim, as stated by the spec: on a recursive `update` of `root`,
every `id_short`-indexed child without its own source determines its nearest
effective source from scratch by walking its parent chain (`find_source`)
and is updated from that ancestor with the corresponding relative path. -/
def childUpdatesFindOwnSource (g : Graph) (reg : List (String × String))
    (fuel root : Nat) : Prop :=
  ∀ evs, Referable.update g reg fuel root = .ok evs →
    ∀ c ∈ childIds (g.objs root), (g.objs c).source = "" →
      ∀ st path, Referable.find_source g fuel c [(g.objs c).id_short] = some (st, path) →
        ∃ ev ∈ evs, ev.op = .updateObject ∧ ev.obj = c ∧ ev.store = st ∧
          ev.relative_path = path

/-! Concrete object graphs used to instantiate the theorems. -/

/-- A filler object for unused heap slots. -/
def noObj : Obj := ⟨"NotSet", none, "", none, false, [], [], [], 0⟩

/-- Round-trip example: an Identifiable Submodel root (id `R1`, IRI)
containing a collection `SM` containing a property `Temp`, all indexed
case-insensitively by `id_short`. -/
def gEx1 : Graph := ⟨fun i =>
  if i = 0 then ⟨"NotSet", none, "", some ⟨"R1", .IRI⟩, true,
      [⟨[("id_short", ([(.str "SM", 1)], false))]⟩], ["Submodel", "Referable"], [], 0⟩
  else if i = 1 then ⟨"SM", some 0, "", none, true,
      [⟨[("id_short", ([(.str "TEMP", 2)], false))]⟩],
      ["SubmodelElementCollection", "Referable"], [], 0⟩
  else if i = 2 then ⟨"Temp", some 1, "", none, false, [],
      ["Property", "Referable"], [], 0⟩
  else noObj⟩

/-- A `KEY_ELEMENTS_CLASSES` table for the examples. -/
def kecEx : String → Option KeyElements := fun s =>
  if s = "Submodel" then some .SUBMODEL
  else if s = "SubmodelElementCollection" then some .SUBMODEL_ELEMENT_COLLECTION
  else if s = "Property" then some .PROPERTY
  else none

/-- A provider registering the root of `gEx1`. -/
def providerEx1 : Identifier → Option Nat := fun idf =>
  if idf = ⟨"R1", .IRI⟩ then some 0 else none

/-- Commit example: grandparent `P2` (source `sb:x`) over parent `P1`
(source `sa:x`) over element `E` (source `se:x`, a namespace) over child `C`
(source `sc:x`). -/
def gEx2 : Graph := ⟨fun i =>
  if i = 0 then ⟨"P2", none, "sb:x", none, true,
      [⟨[("id_short", ([(.str "P1", 1)], false))]⟩], ["Referable"], [], 0⟩
  else if i = 1 then ⟨"P1", some 0, "sa:x", none, true,
      [⟨[("id_short", ([(.str "E", 2)], false))]⟩], ["Referable"], [], 0⟩
  else if i = 2 then ⟨"E", some 1, "se:x", none, true,
      [⟨[("id_short", ([(.str "C", 3)], false))]⟩], ["Referable"], [], 0⟩
  else if i = 3 then ⟨"C", some 2, "sc:x", none, false, [], ["Referable"], [], 0⟩
  else noObj⟩

/-- Backend registry for the examples. -/
def regEx : List (String × String) :=
  [("sa", "BackendA"), ("sb", "BackendB"), ("se", "BackendE"), ("sc", "BackendC"),
   ("xr", "BackendR")]

/-- Update example: a root with source `xr:loc` whose only child has no
source of its own. -/
def gEx3 : Graph := ⟨fun i =>
  if i = 0 then ⟨"Root", none, "xr:loc", none, true,
      [⟨[("id_short", ([(.str "CHILD", 1)], false))]⟩], ["Referable"], [], 0⟩
  else if i = 1 then ⟨"Child", some 0, "", none, false, [], ["Referable"], [], 0⟩
  else noObj⟩

/-- Reconciliation example (the one of the spec): `self` (owner 0) holds
`a = 2` (`x`, v=1); `other` (owner 1) holds the fresh `a' = 3` (`x`, v=2)
and `b = 4` (`y`, v=7). The payloads are parameters. -/
def gEx4 (v1 v2 v3 : Nat) : Graph := ⟨fun i =>
  if i = 0 then ⟨"SelfOwner", none, "", none, true,
      [⟨[("id_short", ([(.str "X", 2)], false))]⟩], ["Referable"], [], 0⟩
  else if i = 1 then ⟨"OtherOwner", none, "", none, true,
      [⟨[("id_short", ([(.str "X", 3), (.str "Y", 4)], false))]⟩], ["Referable"], [], 0⟩
  else if i = 2 then ⟨"x", some 0, "", none, false, [], ["Referable"], [], v1⟩
  else if i = 3 then ⟨"x", some 1, "", none, false, [], ["Referable"], [], v2⟩
  else if i = 4 then ⟨"y", some 1, "", none, false, [], ["Referable"], [], v3⟩
  else noObj⟩

/-- Reconciliation example extended with a stale member: `self` (owner 0)
holds `a = 2` (`x`, v=1) and the stale `c = 5` (`z`, v=9, no counterpart in
`other`); `other` (owner 1) holds the fresh `a' = 3` (`x`, v=2) and
`b = 4` (`y`, v=7). -/
def gEx4r : Graph := ⟨fun i =>
  if i = 0 then ⟨"SelfOwner", none, "", none, true,
      [⟨[("id_short", ([(.str "X", 2), (.str "Z", 5)], false))]⟩], ["Referable"], [], 0⟩
  else if i = 1 then ⟨"OtherOwner", none, "", none, true,
      [⟨[("id_short", ([(.str "X", 3), (.str "Y", 4)], false))]⟩], ["Referable"], [], 0⟩
  else if i = 2 then ⟨"x", some 0, "", none, false, [], ["Referable"], [], 1⟩
  else if i = 3 then ⟨"x", some 1, "", none, false, [], ["Referable"], [], 2⟩
  else if i = 4 then ⟨"y", some 1, "", none, false, [], ["Referable"], [], 7⟩
  else if i = 5 then ⟨"z", some 0, "", none, false, [], ["Referable"], [], 9⟩
  else noObj⟩

/-- Bulk-construction example: an owner and four loose elements `a`, `b`,
`B`, `d`; under a case-insensitive `id_short` index, `B` collides with `b`. -/
def gEx5 : Graph := ⟨fun i =>
  if i = 0 then ⟨"Owner", none, "", none, true, [], ["Referable"], [], 0⟩
  else if i = 1 then ⟨"a", none, "", none, false, [], ["Referable"], [], 0⟩
  else if i = 2 then ⟨"b", none, "", none, false, [], ["Referable"], [], 0⟩
  else if i = 3 then ⟨"B", none, "", none, false, [], ["Referable"], [], 0⟩
  else if i = 4 then ⟨"d", none, "", none, false, [], ["Referable"], [], 0⟩
  else noObj⟩

/-- Rename / ordered-set / add example: an owner with one case-insensitive
`id_short` set holding `a = 1` (indexed as `A`) and `B = 2`; `3` (`C`) and
`4` (`b`, colliding with `B` up to case) are loose. -/
def gEx7 : Graph := ⟨fun i =>
  if i = 0 then ⟨"Owner", none, "", none, true,
      [⟨[("id_short", ([(.str "A", 1), (.str "B", 2)], false))]⟩], ["Referable"], [], 0⟩
  else if i = 1 then ⟨"a", some 0, "", none, false, [], ["Referable"], [], 0⟩
  else if i = 2 then ⟨"B", some 0, "", none, false, [], ["Referable"], [], 0⟩
  else if i = 3 then ⟨"C", none, "", none, false, [], ["Referable"], [], 0⟩
  else if i = 4 then ⟨"b", none, "", none, false, [], ["Referable"], [], 0⟩
  else noObj⟩

/-- Resolution-error example: the root holds the non-namespace property `A`,
and references may continue past it. -/
def gEx9 : Graph := ⟨fun i =>
  if i = 0 then ⟨"NotSet", none, "", some ⟨"ROOT", .IRI⟩, true,
      [⟨[("id_short", ([(.str "A", 1)], false))]⟩], ["Submodel", "Referable"], [], 0⟩
  else if i = 1 then ⟨"A", some 0, "", none, false, [], ["Property", "Referable"], [], 0⟩
  else noObj⟩

/-- Provider registering the root of `gEx9`. -/
def providerEx9 : Identifier → Option Nat := fun idf =>
  if idf = ⟨"ROOT", .IRI⟩ then some 0 else none

/-- A reference through `gEx9` that descends below the non-namespace `A`. -/
def refEx9 : AASRef :=
  ⟨[⟨.SUBMODEL, "ROOT", .IRI⟩, ⟨.PROPERTY, "A", .IDSHORT⟩, ⟨.PROPERTY, "B", .IDSHORT⟩],
   "Referable"⟩

/-! Helper lemmas. -/

theorem getElem?_set_self {α : Type} (l : List α) (i : Nat) (a : α) :
    (l.set i a)[i]? = if i < l.length then some a else none := by
  induction l generalizing i with
  | nil => simp
  | cons x xs ih =>
    cases i with
    | zero => simp
    | succ n => simpa using ih n

theorem get?_set_self {α : Type} (l : List α) (i : Nat) (a : α) :
    (l.set i a).get? i = if i < l.length then some a else none := by
  rw [List.get?_eq_getElem?, getElem?_set_self]

theorem setAt_updSet_self (g : Graph) (o si : Nat) (f : NsSet → NsSet) :
    (g.updSet o si f).setAt o si =
      if si < (g.sets o).length then f (g.setAt o si) else NsSet.empty := by
  have h1 : (g.updSet o si f).setAt o si =
      ((g.objs o).nsSets.set si
        (f ((g.objs o).nsSets.getD si NsSet.empty))).getD si NsSet.empty := by
    simp [Graph.updSet, Graph.setAt, Graph.sets, Graph.upd]
  rw [h1]
  unfold Graph.sets Graph.setAt Graph.sets
  simp only [List.getD, get?_set_self, getElem?_set_self]
  split
  · rfl
  · rfl

theorem clear_setAt (g : Graph) (o si : Nat) :
    ∀ p ∈ ((NamespaceSet.clear g o si).setAt o si).backend, p.2.1 = [] := by
  intro p hp
  unfold NamespaceSet.clear at hp
  rw [setAt_updSet_self] at hp
  split at hp
  · obtain ⟨q, hq, rfl⟩ := List.mem_map.mp hp
    rfl
  · simp [NsSet.empty] at hp

theorem nssInitLoop_err_empty (ownerId si : Nat) :
    ∀ (items : List Nat) (g : Graph) (e : NssErr),
      (nssInitLoop g ownerId si items).2 = some e →
      ∀ p ∈ ((nssInitLoop g ownerId si items).1.setAt ownerId si).backend, p.2.1 = [] := by
  intro items
  induction items with
  | nil => intro g e h; simp [nssInitLoop] at h
  | cons m rest ih =>
    intro g e h
    unfold nssInitLoop at h ⊢
    cases hA : NamespaceSet.add g ownerId si m with
    | mk g1 err =>
      simp only [hA] at h ⊢
      cases err with
      | none => exact ih g1 e h
      | some e2 => exact clear_setAt g1 ownerId si

/-- C5: a failed bulk construction of a `NamespaceSet` is all-or-nothing:
when `__init__` propagates an error, every item added in that construction
has been removed again — every attribute dict of the freshly created set is
empty afterwards. -/
theorem C5_bulk_construction_rollback (g : Graph) (ownerId : Nat)
    (attribute_names : List (String × Bool)) (items : List Nat) (e : NssErr)
    (herr : (NamespaceSet.init g ownerId attribute_names items).2.2 = some e) :
    ∀ p ∈ (((NamespaceSet.init g ownerId attribute_names items).1).setAt ownerId
        ((NamespaceSet.init g ownerId attribute_names items).2.1)).backend,
      p.2.1 = [] := by
  simp only [NamespaceSet.init] at herr ⊢
  exact nssInitLoop_err_empty ownerId (g.sets ownerId).length items _ e herr

/-- Witness for C5 at a concrete bulk construction of four items whose third
collides (case-insensitively) with the second. -/
theorem C5_witness :
    (NamespaceSet.init gEx5 0 [("id_short", false)] [1, 2, 3, 4]).2.2 =
      some (.collision "id_short" (.str "B")) ∧
    ∀ p ∈ (((NamespaceSet.init gEx5 0 [("id_short", false)] [1, 2, 3, 4]).1).setAt 0
        ((NamespaceSet.init gEx5 0 [("id_short", false)] [1, 2, 3, 4]).2.1)).backend,
      p.2.1 = [] :=
  ⟨by decide, C5_bulk_construction_rollback gEx5 0 [("id_short", false)] [1, 2, 3, 4]
    (.collision "id_short" (.str "B")) (by decide)⟩

theorem set_id_short_collision (g : Graph) (i p : Nat) (v : String)
    (hp : (g.objs i).parent = some p)
    (hne : v ≠ (g.objs i).id_short) (hnz : v ≠ "")
    (hch : idShortChars v = true) (hal : (v.toList.headD 'a').isAlpha = true)
    (hcoll : (g.sets p).any (fun s => s.contains_id "id_short" (.str v)) = true) :
    Referable.set_id_short g i v = (g, some (.keyErrorCollision v)) := by
  simp only [Referable.set_id_short, hp]
  rw [if_neg hne, if_neg hnz, if_neg (fun hc => hc hch), if_neg (fun hc => hc hal),
    if_pos hcoll]

/-- C7: renaming the `id_short` of a contained element to a value already present
in a sibling set of the owner fails with the collision KeyError and leaves
the heap — index entries and the stored attribute value — completely
unchanged: the check precedes any detach/mutate/reattach step. -/
theorem C7_rename_collision_atomic (g : Graph) (i p : Nat) (v : String)
    (hp : (g.objs i).parent = some p)
    (hne : v ≠ (g.objs i).id_short) (hnz : v ≠ "")
    (hch : idShortChars v = true) (hal : (v.toList.headD 'a').isAlpha = true)
    (hcoll : (g.sets p).any (fun s => s.contains_id "id_short" (.str v)) = true) :
    Referable.set_id_short g i v = (g, some (.keyErrorCollision v)) :=
  set_id_short_collision g i p v hp hne hnz hch hal hcoll

/-- Witness for C7 at `gEx7`: renaming `a` to `B` collides with the sibling
entry `B` and leaves the heap unchanged. -/
theorem C7_witness :
    Referable.set_id_short gEx7 1 "B" = (gEx7, some (.keyErrorCollision "B")) :=
  C7_rename_collision_atomic gEx7 1 0 "B" (by decide) (by decide) (by decide)
    (by decide) (by decide) (by decide)

/-- C10: under a case-insensitive `id_short` index, renaming an element to a
value differing from its current `id_short` only in case collides with the
own index entry of the element (even though no other element uses the value) and
the rename fails, leaving the `id_short` unchanged. -/
theorem C10_case_insensitive_self_collision (g : Graph) (i p : Nat) (v : String)
    (s : NsSet) (d : List (AttrVal × Nat))
    (hp : (g.objs i).parent = some p)
    (hne : v ≠ (g.objs i).id_short) (hnz : v ≠ "")
    (hch : idShortChars v = true) (hal : (v.toList.headD 'a').isAlpha = true)
    (hs : s ∈ g.sets p)
    (hd : slookup s.backend "id_short" = some (d, false))
    (hself : alookup d (.str (pyUpper (g.objs i).id_short)) = some i)
    (hcase : pyUpper v = pyUpper (g.objs i).id_short)
    (honly : ∀ s' ∈ g.sets p, ∀ q ∈ s'.backend, ∀ kv ∈ q.2.1,
      kv.1 = AttrVal.str (pyUpper v) → kv.2 = i) :
    Referable.set_id_short g i v = (g, some (.keyErrorCollision v)) := by
  apply set_id_short_collision g i p v hp hne hnz hch hal
  rw [List.any_eq_true]
  refine ⟨s, hs, ?_⟩
  unfold NsSet.contains_id
  rw [hd]
  simp only [foldVal]
  rw [if_neg (by simp), hcase, hself]
  rfl

/-- Witness for C10 at `gEx7`: renaming `a` (indexed as `A`) to `A` fails
with a collision against its own entry although only `a` itself uses the
value `A`. -/
theorem C10_witness :
    Referable.set_id_short gEx7 1 "A" = (gEx7, some (.keyErrorCollision "A")) :=
  C10_case_insensitive_self_collision gEx7 1 0 "A"
    ⟨[("id_short", ([(.str "A", 1), (.str "B", 2)], false))]⟩
    [(.str "A", 1), (.str "B", 2)]
    (by decide) (by decide) (by decide) (by decide) (by decide) (by decide)
    (by decide) (by decide) (by decide) (by decide)

theorem findSome?_isSome_eq_any {α β : Type} (f : α → Option β) (l : List α) :
    (l.findSome? f).isSome = l.any fun x => (f x).isSome := by
  induction l with
  | nil => simp
  | cons x xs ih =>
    rw [List.findSome?_cons]
    cases h : f x <;> simp [h, ih]

theorem scanCollisionAttr_isSome (m : Obj) (p : String × (List (AttrVal × Nat) × Bool)) :
    (scanCollisionAttr m p).isSome =
      (match m.getattr? p.1 with
       | none => false
       | some val => (alookup p.2.1 (foldVal p.2.2 val)).isSome) := by
  unfold scanCollisionAttr
  cases h : m.getattr? p.1 with
  | none => rfl
  | some val =>
    show (if (alookup p.2.1 (foldVal p.2.2 val)).isSome = true
        then some (p.1, val) else none).isSome = (alookup p.2.1 (foldVal p.2.2 val)).isSome
    cases hl : (alookup p.2.1 (foldVal p.2.2 val)).isSome with
    | true => rw [if_pos rfl]; rfl
    | false => rw [if_neg (by simp)]; rfl

theorem addCollides_eq_scan (g : Graph) (ownerId mId : Nat) :
    addCollides g ownerId mId = (scanCollision (g.sets ownerId) (g.objs mId)).isSome := by
  unfold addCollides scanCollision
  simp only [findSome?_isSome_eq_any, scanCollisionAttr_isSome]

theorem addCollides_iff (g : Graph) (ownerId mId : Nat) :
    addCollides g ownerId mId = true ↔
      ∃ s ∈ g.sets ownerId, ∃ p ∈ s.backend, ∃ val,
        (g.objs mId).getattr? p.1 = some val ∧
        (alookup p.2.1 (foldVal p.2.2 val)).isSome = true := by
  unfold addCollides
  rw [List.any_eq_true]
  constructor
  · rintro ⟨s, hs, hany⟩
    rw [List.any_eq_true] at hany
    obtain ⟨p, hp, hmatch⟩ := hany
    cases hg : (g.objs mId).getattr? p.1 with
    | none => rw [hg] at hmatch; simp at hmatch
    | some val =>
      rw [hg] at hmatch
      exact ⟨s, hs, p, hp, val, hg, hmatch⟩
  · rintro ⟨s, hs, p, hp, val, hg, hl⟩
    refine ⟨s, hs, ?_⟩
    rw [List.any_eq_true]
    refine ⟨p, hp, ?_⟩
    rw [hg]
    exact hl

theorem scanCollisionAttr_findSome_spec (m : Obj)
    (bk : List (String × (List (AttrVal × Nat) × Bool))) :
    ∀ a val, bk.findSome? (scanCollisionAttr m) = some (a, val) →
      m.getattr? a = some val ∧ ∃ d cs, (a, (d, cs)) ∈ bk ∧
        (alookup d (foldVal cs val)).isSome = true := by
  induction bk with
  | nil => intro a val h; simp at h
  | cons p rest ih =>
    intro a val h
    rw [List.findSome?_cons] at h
    cases hp : scanCollisionAttr m p with
    | some pr =>
      rw [hp] at h
      simp only [Option.some.injEq] at h
      subst h
      unfold scanCollisionAttr at hp
      cases hg : m.getattr? p.1 with
      | none => rw [hg] at hp; cases hp
      | some v2 =>
        rw [hg] at hp
        have hp2 : (if (alookup p.2.1 (foldVal p.2.2 v2)).isSome = true
            then some (p.1, v2) else none) = some (a, val) := hp
        by_cases hl : (alookup p.2.1 (foldVal p.2.2 v2)).isSome = true
        · rw [if_pos hl] at hp2
          simp only [Option.some.injEq, Prod.mk.injEq] at hp2
          obtain ⟨h1, h2⟩ := hp2
          subst h1; subst h2
          exact ⟨hg, p.2.1, p.2.2, by simp, hl⟩
        · rw [if_neg hl] at hp2; cases hp2
    | none =>
      rw [hp] at h
      obtain ⟨h1, d, cs, hmem, hlk⟩ := ih a val h
      exact ⟨h1, d, cs, List.mem_cons_of_mem _ hmem, hlk⟩

theorem scanCollision_spec (sets : List NsSet) (m : Obj) :
    ∀ a val, scanCollision sets m = some (a, val) →
      m.getattr? a = some val ∧ ∃ s ∈ sets, ∃ d cs, (a, (d, cs)) ∈ s.backend ∧
        (alookup d (foldVal cs val)).isSome = true := by
  induction sets with
  | nil => intro a val h; simp [scanCollision] at h
  | cons s rest ih =>
    intro a val h
    rw [scanCollision, List.findSome?_cons] at h
    cases hs : s.backend.findSome? (scanCollisionAttr m) with
    | some pr =>
      rw [hs] at h
      simp only [Option.some.injEq] at h
      subst h
      obtain ⟨h1, d, cs, hmem, hlk⟩ := scanCollisionAttr_findSome_spec m s.backend a val hs
      exact ⟨h1, s, List.mem_cons_self _ _, d, cs, hmem, hlk⟩
    | none =>
      rw [hs] at h
      obtain ⟨h1, s', hs', rest_spec⟩ := ih a val h
      exact ⟨h1, s', List.mem_cons_of_mem _ hs', rest_spec⟩

theorem sets_upd_fields (g : Graph) (j : Nat) (f : Obj → Obj)
    (hf : ∀ ob, (f ob).nsSets = ob.nsSets) (o : Nat) :
    (g.upd j f).sets o = g.sets o := by
  unfold Graph.upd Graph.sets
  by_cases h : o = j <;> simp [h, hf]

theorem setAt_upd_fields (g : Graph) (j : Nat) (f : Obj → Obj)
    (hf : ∀ ob, (f ob).nsSets = ob.nsSets) (o si : Nat) :
    (g.upd j f).setAt o si = g.setAt o si := by
  unfold Graph.setAt
  rw [sets_upd_fields g j f hf o]

theorem getattr_upd_parent (g : Graph) (j : Nat) (pv : Option Nat) (k : Nat) (a : String) :
    ((g.upd j fun ob => { ob with parent := pv }).objs k).getattr? a =
      (g.objs k).getattr? a := by
  unfold Graph.upd Obj.getattr?
  by_cases h : k = j <;> simp [h]

theorem parent_updSet (g : Graph) (o si : Nat) (f : NsSet → NsSet) (j : Nat) :
    ((g.updSet o si f).objs j).parent = (g.objs j).parent := by
  unfold Graph.updSet Graph.upd
  by_cases h : j = o <;> simp [h]

theorem insertAll_congr (m1 m2 : Obj) (mId : Nat)
    (h : ∀ a, m1.getattr? a = m2.getattr? a) :
    ∀ bk, insertAll m1 mId bk = insertAll m2 mId bk := by
  intro bk
  induction bk with
  | nil => rfl
  | cons p rest ih =>
    obtain ⟨a, d, cs⟩ := p
    unfold insertAll
    rw [h a, ih]

theorem insertAll_ok (m : Obj) (mId : Nat) :
    ∀ bk, (∀ p ∈ bk, ((m.getattr? p.1).isSome : Bool) = true) →
      insertAll m mId bk =
        (bk.map fun p =>
          (p.1, (p.2.1 ++ [(foldVal p.2.2 ((m.getattr? p.1).getD (.str "")), mId)], p.2.2)),
         none) := by
  intro bk
  induction bk with
  | nil => intro _; rfl
  | cons p rest ih =>
    intro hall
    obtain ⟨a, d, cs⟩ := p
    have h1 := hall (a, d, cs) (List.mem_cons_self _ _)
    obtain ⟨val, hval⟩ := Option.isSome_iff_exists.mp h1
    unfold insertAll
    rw [hval, ih fun q hq => hall q (List.mem_cons_of_mem _ hq)]
    simp [hval]

theorem getD_of_le {α : Type} (l : List α) (i : Nat) (d : α) (h : l.length ≤ i) :
    l.getD i d = d := by
  rw [List.getD, List.get?_eq_getElem?, List.getElem?_eq_none h]
  rfl

/-- C6: the behaviour of `NamespaceSet.add`: (a) a collision happens exactly
when some sibling set of the owner tracks an attribute the item carries
whose folded (case-insensitive attributes upper-cased) value is already
indexed; (b) in that case `add` raises a collision error naming an attribute
and its raw value and leaves the heap unchanged; (c) with no collision, an
item owned by a different Namespace is rejected; (d) otherwise `add`
succeeds, sets the parent of the item to the owner and appends the item, under
its folded value, to every attribute dict this set tracks. -/
theorem C6_add_collision_and_insertion (g : Graph) (ownerId si mId : Nat) :
    (addCollides g ownerId mId = true ↔
      ∃ s ∈ g.sets ownerId, ∃ p ∈ s.backend, ∃ val,
        (g.objs mId).getattr? p.1 = some val ∧
        (alookup p.2.1 (foldVal p.2.2 val)).isSome = true) ∧
    (addCollides g ownerId mId = true →
      ∃ a val, NamespaceSet.add g ownerId si mId = (g, some (.collision a val)) ∧
        (g.objs mId).getattr? a = some val ∧
        ∃ s ∈ g.sets ownerId, ∃ d cs, (a, (d, cs)) ∈ s.backend ∧
          (alookup d (foldVal cs val)).isSome = true) ∧
    (addCollides g ownerId mId = false →
      (g.objs mId).parent ≠ none → (g.objs mId).parent ≠ some ownerId →
      NamespaceSet.add g ownerId si mId = (g, some .valueErrorParent)) ∧
    (addCollides g ownerId mId = false →
      ((g.objs mId).parent = none ∨ (g.objs mId).parent = some ownerId) →
      (∀ p ∈ (g.setAt ownerId si).backend, ((g.objs mId).getattr? p.1).isSome = true) →
      (NamespaceSet.add g ownerId si mId).2 = none ∧
        (((NamespaceSet.add g ownerId si mId).1).objs mId).parent = some ownerId ∧
        (((NamespaceSet.add g ownerId si mId).1).setAt ownerId si).backend =
          (g.setAt ownerId si).backend.map fun p =>
            (p.1, (p.2.1 ++
              [(foldVal p.2.2 (((g.objs mId).getattr? p.1).getD (.str "")), mId)], p.2.2))) := by
  have hparentf : ∀ ob : Obj, ({ ob with parent := some ownerId } : Obj).nsSets = ob.nsSets :=
    fun ob => rfl
  refine ⟨addCollides_iff g ownerId mId, ?_, ?_, ?_⟩
  · intro hc
    rw [addCollides_eq_scan] at hc
    obtain ⟨⟨a, val⟩, hscan⟩ := Option.isSome_iff_exists.mp hc
    obtain ⟨hget, hsem⟩ := scanCollision_spec _ _ a val hscan
    refine ⟨a, val, ?_, hget, hsem⟩
    simp only [NamespaceSet.add]
    rw [hscan]
  · intro hc hne hner
    have hscan : scanCollision (g.sets ownerId) (g.objs mId) = none := by
      rw [addCollides_eq_scan] at hc
      exact Option.not_isSome_iff_eq_none.mp (by simp [hc])
    simp only [NamespaceSet.add]
    rw [hscan]
    rw [if_pos ⟨hne, hner⟩]
  · intro hc hpar hall
    have hscan : scanCollision (g.sets ownerId) (g.objs mId) = none := by
      rw [addCollides_eq_scan] at hc
      exact Option.not_isSome_iff_eq_none.mp (by simp [hc])
    simp only [NamespaceSet.add]
    rw [hscan]
    rw [if_neg (by rcases hpar with h | h <;> simp [h])]
    have hsetAt : (g.upd mId fun o => { o with parent := some ownerId }).setAt ownerId si =
        g.setAt ownerId si := setAt_upd_fields g mId _ hparentf ownerId si
    have hins : insertAll ((g.upd mId fun o => { o with parent := some ownerId }).objs mId)
        mId ((g.upd mId fun o => { o with parent := some ownerId }).setAt ownerId si).backend =
        (((g.setAt ownerId si).backend.map fun p =>
          (p.1, (p.2.1 ++
            [(foldVal p.2.2 (((g.objs mId).getattr? p.1).getD (.str "")), mId)], p.2.2))),
         none) := by
      rw [hsetAt, insertAll_congr _ (g.objs mId) mId (fun a => getattr_upd_parent g mId _ mId a)]
      exact insertAll_ok (g.objs mId) mId _ hall
    refine ⟨?_, ?_, ?_⟩
    · simp only [hins]
    · simp only [hins]
      rw [parent_updSet]
      simp [Graph.upd]
    · simp only [hins]
      rw [setAt_updSet_self]
      have hlen : ((g.upd mId fun o => { o with parent := some ownerId }).sets ownerId).length =
          (g.sets ownerId).length := by rw [sets_upd_fields g mId _ hparentf]
      by_cases hsi : si < (g.sets ownerId).length
      · rw [if_pos (by rw [hlen]; exact hsi)]
      · rw [if_neg (by rw [hlen]; exact hsi)]
        have : g.setAt ownerId si = NsSet.empty := by
          unfold Graph.setAt
          exact getD_of_le _ _ _ (Nat.le_of_not_lt hsi)
        rw [this]
        rfl

/-- Witness for C6 at `gEx7`: adding the loose `b` collides
(case-insensitively) with the indexed `B`; adding the loose `C` succeeds,
re-parents it to the owner and appends it to the `id_short` dict. -/
theorem C6_witness :
    (∃ a val, NamespaceSet.add gEx7 0 0 4 = (gEx7, some (.collision a val)) ∧
      (gEx7.objs 4).getattr? a = some val ∧
      ∃ s ∈ gEx7.sets 0, ∃ d cs, (a, (d, cs)) ∈ s.backend ∧
        (alookup d (foldVal cs val)).isSome = true) ∧
    ((NamespaceSet.add gEx7 0 0 3).2 = none ∧
      (((NamespaceSet.add gEx7 0 0 3).1).objs 3).parent = some 0 ∧
      (((NamespaceSet.add gEx7 0 0 3).1).setAt 0 0).backend =
        (gEx7.setAt 0 0).backend.map fun p =>
          (p.1, (p.2.1 ++ [(foldVal p.2.2 (((gEx7.objs 3).getattr? p.1).getD (.str "")), 3)],
            p.2.2))) :=
  ⟨(C6_add_collision_and_insertion gEx7 0 0 4).2.1 (by decide),
   (C6_add_collision_and_insertion gEx7 0 0 3).2.2.2 (by decide) (Or.inl (by decide))
     (by decide)⟩

/-- C8 (code bug): in an `OrderedNamespaceSet`, `insert(i, x)` followed by
reading position `i` does return `x`; but slice replacement breaks the
order/índex correspondence: replacing `order[0:1]` of `[a, B]` by `[C]`
succeeds, indexes `C` in the backend — yet the `islice` iterator assigned to
the `_order` slice is already exhausted, so `C` never appears in the
iteration order (`_order` ends as `[B]`). -/
theorem C8_slice_replacement_loses_order :
    OrderedNamespaceSet.getitem?
        (OrderedNamespaceSet.insert (gEx7, [1, 2]) 0 0 1 3).1 1 = some 3 ∧
    (OrderedNamespaceSet.setSlice (gEx7, [1, 2]) 0 0 0 1 [3]).2 = none ∧
    (OrderedNamespaceSet.setSlice (gEx7, [1, 2]) 0 0 0 1 [3]).1.2 = [2] ∧
    ((OrderedNamespaceSet.setSlice (gEx7, [1, 2]) 0 0 0 1 [3]).1.1.setAt 0 0).memberIds
      = [2, 3] ∧
    3 ∈ ((OrderedNamespaceSet.setSlice (gEx7, [1, 2]) 0 0 0 1 [3]).1.1.setAt 0 0).memberIds ∧
    3 ∉ (OrderedNamespaceSet.setSlice (gEx7, [1, 2]) 0 0 0 1 [3]).1.2 := by
  decide

theorem resolveWalk_typeError_keys (g : Graph) :
    ∀ (ks : List Key) (item : Nat) (rk p : List String),
      resolveWalk g ks item rk = .error (.typeErrorNotNamespace p) → p = rk := by
  intro ks
  induction ks with
  | nil => intro item rk p h; simp [resolveWalk] at h
  | cons k rest ih =>
    intro item rk p h
    unfold resolveWalk at h
    cases hn : (g.objs item).isNamespace with
    | false =>
      rw [hn] at h
      rw [if_pos (by simp)] at h
      injection h with h1
      injection h1 with h2
      exact h2.symm
    | true =>
      rw [hn] at h
      rw [if_neg (by simp)] at h
      cases hr : g.get_referable? item k.value with
      | none => rw [hr] at h; simp at h
      | some nxt => rw [hr] at h; exact ih nxt rk p h

/-- C9 counterexample: resolving a reference that walks `ROOT / A / B` in
`gEx9`, where `A` is not a Namespace, raises the type error — but the error
names only the root identifier, not the partial path walked so far (the walk
did pass through `A`, which is retrievable below the root and is not a
Namespace). -/
theorem C9_counterexample :
    AASReference.resolve gEx9 providerEx9 refEx9 =
      .error (.typeErrorNotNamespace ["Identifier(IRI=ROOT)"]) ∧
    Graph.get_referable? gEx9 0 "A" = some 1 ∧
    (gEx9.objs 1).isNamespace = false ∧
    AASReference.resolve gEx9 providerEx9 refEx9 ≠
      .error (.typeErrorNotNamespace ["Identifier(IRI=ROOT)", "A"]) := by
  decide

/-- C9 amended: `AASReference.resolve` fails with an IndexError on an empty
key list; with a KeyError carrying the identifier when the last global key
misses the provider; with a TypeError when the walk meets a non-Namespace —
naming only the identifier of the resolution root (the diagnostics list is
never extended during the walk); and, when the walk succeeds but the final
element is not an instance of the declared target kind, with an
unexpected-type error carrying the wrongly-typed element. -/
theorem C9_resolve_error_cases (g : Graph) (provider : Identifier → Option Nat) :
    (∀ t, AASReference.resolve g provider ⟨[], t⟩ = .error .indexError) ∧
    (∀ (r : AASRef) (li : Nat) (idf : Identifier),
      lastIdentifierIndex r.key = some li →
      (r.key.getD li dKey).get_identifier = some idf →
      provider idf = none →
      AASReference.resolve g provider r = .error (.keyErrorIdentifier idf)) ∧
    (∀ (r : AASRef) (li item : Nat) (idf : Identifier) (p : List String),
      lastIdentifierIndex r.key = some li →
      (r.key.getD li dKey).get_identifier = some idf →
      provider idf = some item →
      resolveWalk g (r.key.drop (li + 1)) item [strIdentifier idf] =
        .error (.typeErrorNotNamespace p) →
      AASReference.resolve g provider r =
        .error (.typeErrorNotNamespace [strIdentifier idf])) ∧
    (∀ (r : AASRef) (li item final : Nat) (idf : Identifier),
      lastIdentifierIndex r.key = some li →
      (r.key.getD li dKey).get_identifier = some idf →
      provider idf = some item →
      resolveWalk g (r.key.drop (li + 1)) item [strIdentifier idf] = .ok final →
      ¬ r.type_ ∈ (g.objs final).mro →
      AASReference.resolve g provider r = .error (.unexpectedType final)) := by
  refine ⟨fun t => rfl, ?_, ?_, ?_⟩
  · intro r li idf hli hid hmiss
    have hne : r.key ≠ [] := by
      intro h0; rw [h0] at hli; simp [lastIdentifierIndex] at hli
    simp only [AASReference.resolve]
    rw [if_neg (fun hc => hne (List.length_eq_zero.mp hc))]
    simp only [hli, hid, hmiss]
  · intro r li item idf p hli hid hprov hw
    have hp := resolveWalk_typeError_keys g _ _ _ _ hw
    subst hp
    have hne : r.key ≠ [] := by
      intro h0; rw [h0] at hli; simp [lastIdentifierIndex] at hli
    simp only [AASReference.resolve]
    rw [if_neg (fun hc => hne (List.length_eq_zero.mp hc))]
    simp only [hli, hid, hprov, hw]
  · intro r li item final idf hli hid hprov hw hnotin
    have hne : r.key ≠ [] := by
      intro h0; rw [h0] at hli; simp [lastIdentifierIndex] at hli
    simp only [AASReference.resolve]
    rw [if_neg (fun hc => hne (List.length_eq_zero.mp hc))]
    simp only [hli, hid, hprov, hw]
    rw [if_neg hnotin]

/-- Witness for the four amended C9 error cases at concrete references over
`gEx9`. -/
theorem C9_witness :
    AASReference.resolve gEx9 providerEx9 ⟨[], "Submodel"⟩ = .error .indexError ∧
    AASReference.resolve gEx9 providerEx9 ⟨[⟨.SUBMODEL, "MISSING", .IRI⟩], "Referable"⟩ =
      .error (.keyErrorIdentifier ⟨"MISSING", .IRI⟩) ∧
    AASReference.resolve gEx9 providerEx9 refEx9 =
      .error (.typeErrorNotNamespace [strIdentifier ⟨"ROOT", .IRI⟩]) ∧
    AASReference.resolve gEx9 providerEx9 ⟨[⟨.SUBMODEL, "ROOT", .IRI⟩], "Qualifier"⟩ =
      .error (.unexpectedType 0) :=
  ⟨(C9_resolve_error_cases gEx9 providerEx9).1 "Submodel",
   (C9_resolve_error_cases gEx9 providerEx9).2.1 ⟨[⟨.SUBMODEL, "MISSING", .IRI⟩], "Referable"⟩
     0 ⟨"MISSING", .IRI⟩ (by decide) (by decide) (by decide),
   (C9_resolve_error_cases gEx9 providerEx9).2.2.1 refEx9 0 0 ⟨"ROOT", .IRI⟩
     ["Identifier(IRI=ROOT)"] (by decide) (by decide) (by decide) (by decide),
   (C9_resolve_error_cases gEx9 providerEx9).2.2.2 ⟨[⟨.SUBMODEL, "ROOT", .IRI⟩], "Qualifier"⟩
     0 0 0 ⟨"ROOT", .IRI⟩ (by decide) (by decide) (by decide) (by decide) (by decide)⟩

theorem directSourceTrace_events (g : Graph) (reg : List (String × String)) (op : BOp) :
    ∀ (fuel : Nat) (l : List Nat) (evs : List Event),
      directSourceTrace g reg op fuel l = .ok evs →
      ∀ ev ∈ evs, ev.op = op ∧ ev.store = ev.obj ∧ ev.relative_path = [] ∧
        (g.objs ev.obj).source ≠ "" ∧
        get_backend reg (g.objs ev.obj).source = .ok ev.backend := by
  intro fuel
  induction fuel with
  | zero =>
    intro l evs h
    cases l with
    | nil =>
      simp only [directSourceTrace] at h
      injection h with h'
      subst h'
      intro ev hev
      simp at hev
    | cons x xs => simp [directSourceTrace] at h
  | succ f ih =>
    intro l evs h
    cases l with
    | nil =>
      simp only [directSourceTrace] at h
      injection h with h'
      subst h'
      intro ev hev
      simp at hev
    | cons i rest =>
      simp only [directSourceTrace] at h
      by_cases hsrc : (g.objs i).source = ""
      · rw [if_neg (fun hc => hc hsrc)] at h
        cases hsub : directSourceTrace g reg op f
            (if (g.objs i).isNamespace then childIds (g.objs i) else []) with
        | error e2 => simp only [hsub] at h; exact Except.noConfusion h
        | ok sub =>
          simp only [hsub] at h
          cases htail : directSourceTrace g reg op f rest with
          | error e3 => simp only [htail] at h; exact Except.noConfusion h
          | ok tail =>
            simp only [htail] at h
            injection h with h'
            subst h'
            intro ev hev
            simp only [List.nil_append, List.mem_append] at hev
            rcases hev with hev | hev
            · exact ih _ sub hsub ev hev
            · exact ih rest tail htail ev hev
      · rw [if_pos hsrc] at h
        cases hb : get_backend reg (g.objs i).source with
        | error e1 => simp only [hb] at h; exact Except.noConfusion h
        | ok b =>
          simp only [hb] at h
          cases hsub : directSourceTrace g reg op f
              (if (g.objs i).isNamespace then childIds (g.objs i) else []) with
          | error e2 => simp only [hsub] at h; exact Except.noConfusion h
          | ok sub =>
            simp only [hsub] at h
            cases htail : directSourceTrace g reg op f rest with
            | error e3 => simp only [htail] at h; exact Except.noConfusion h
            | ok tail =>
              simp only [htail] at h
              injection h with h'
              subst h'
              intro ev hev
              simp only [List.cons_append, List.nil_append, List.mem_cons,
                List.mem_append] at hev
              rcases hev with rfl | hev | hev
              · exact ⟨rfl, rfl, rfl, hsrc, hb⟩
              · exact ih _ sub hsub ev hev
              · exact ih rest tail htail ev hev

/-- C2: `commit()` on an element whose parent `P1` and grandparent `P2` (the
root) both carry non-empty sources invokes the backend of each ancestor's
source — not only the nearest — with the relative path of short names from
that ancestor down to the element (the deeper ancestor receiving the longer
path); afterwards, an element with its own non-empty source commits to it
with an empty relative path (the first event of the recursive phase), and
every event of the recursive phase commits a descendant to its *own*
non-empty source only (store = the committed object itself, empty path). -/
theorem C2_commit_all_ancestor_sources (g : Graph) (reg : List (String × String))
    (fuel e p1 p2 : Nat) (b1 b2 : String) (dir : List Event)
    (hp1 : (g.objs e).parent = some p1)
    (hs1 : (g.objs p1).source ≠ "")
    (hb1 : get_backend reg (g.objs p1).source = .ok b1)
    (hp2 : (g.objs p1).parent = some p2)
    (hs2 : (g.objs p2).source ≠ "")
    (hb2 : get_backend reg (g.objs p2).source = .ok b2)
    (hp3 : (g.objs p2).parent = none)
    (hfuel : 2 ≤ fuel)
    (hdir : directSourceTrace g reg .commitObject fuel [e] = .ok dir) :
    Referable.commit g reg fuel e =
      .ok (⟨b1, .commitObject, e, p1, [(g.objs e).id_short]⟩ ::
           ⟨b2, .commitObject, e, p2, [(g.objs p1).id_short, (g.objs e).id_short]⟩ :: dir) ∧
    (∀ ev ∈ dir, ev.op = .commitObject ∧ ev.store = ev.obj ∧ ev.relative_path = [] ∧
      (g.objs ev.obj).source ≠ "" ∧
      get_backend reg (g.objs ev.obj).source = .ok ev.backend) ∧
    ((g.objs e).source ≠ "" → ∃ be, get_backend reg (g.objs e).source = .ok be ∧
      dir.head? = some ⟨be, .commitObject, e, e, []⟩) := by
  obtain ⟨k, rfl⟩ : ∃ k, fuel = k + 2 := ⟨fuel - 2, by omega⟩
  have h0 : commitAncestors g reg e k ((g.objs p2).parent)
      ((g.objs p2).id_short :: (g.objs p1).id_short :: [(g.objs e).id_short]) = .ok [] := by
    rw [hp3]
    cases k <;> rfl
  have h1 : commitAncestors g reg e (k + 1) ((g.objs p1).parent)
      ((g.objs p1).id_short :: [(g.objs e).id_short]) =
      .ok [⟨b2, .commitObject, e, p2, [(g.objs p1).id_short, (g.objs e).id_short]⟩] := by
    rw [hp2]
    simp only [commitAncestors]
    rw [if_pos hs2]
    simp only [hb2, h0]
  have h2 : commitAncestors g reg e (k + 2) ((g.objs e).parent) [(g.objs e).id_short] =
      .ok [⟨b1, .commitObject, e, p1, [(g.objs e).id_short]⟩,
           ⟨b2, .commitObject, e, p2, [(g.objs p1).id_short, (g.objs e).id_short]⟩] := by
    rw [hp1]
    simp only [commitAncestors]
    rw [if_pos hs1]
    simp only [hb1, h1]
  refine ⟨?_, directSourceTrace_events g reg .commitObject (k + 2) [e] dir hdir, ?_⟩
  · simp only [Referable.commit, h2, hdir]
    rfl
  · intro hse
    simp only [directSourceTrace] at hdir
    rw [if_pos hse] at hdir
    cases hb : get_backend reg (g.objs e).source with
    | error e1 => simp only [hb] at hdir; exact Except.noConfusion hdir
    | ok be =>
      simp only [hb] at hdir
      cases hsub : directSourceTrace g reg .commitObject (k + 1)
          (if (g.objs e).isNamespace then childIds (g.objs e) else []) with
      | error e2 => simp only [hsub] at hdir; exact Except.noConfusion hdir
      | ok sub =>
        simp only [hsub] at hdir
        injection hdir with h'
        subst h'
        exact ⟨be, rfl, rfl⟩

/-- Witness for C2 at the four-level chain `gEx2`. -/
theorem C2_witness :
    Referable.commit gEx2 regEx 9 2 =
      .ok [⟨"BackendA", .commitObject, 2, 1, ["E"]⟩,
           ⟨"BackendB", .commitObject, 2, 0, ["P1", "E"]⟩,
           ⟨"BackendE", .commitObject, 2, 2, []⟩,
           ⟨"BackendC", .commitObject, 3, 3, []⟩] :=
  (C2_commit_all_ancestor_sources gEx2 regEx 9 2 1 0 "BackendA" "BackendB"
    [⟨"BackendE", .commitObject, 2, 2, []⟩, ⟨"BackendC", .commitObject, 3, 3, []⟩]
    (by decide) (by decide) (by decide) (by decide) (by decide) (by decide) (by decide)
    (by decide) (by decide)).1

/-- C3 counterexample: recursively updating the root of `gEx3` produces no
update of the child, although the child (whose own source is empty) has a
nearest effective source reachable by walking its parent chain — refuting
the claim that each child resolves its own source from scratch. -/
theorem C3_counterexample : ¬ childUpdatesFindOwnSource gEx3 regEx 9 0 := by
  intro h
  have h1 := h [⟨"BackendR", .updateObject, 0, 0, []⟩] (by decide) 1 (by decide) (by decide)
    0 ["Root", "Child"] (by decide)
  obtain ⟨ev, hmem, hop, hobj, hst, hpath⟩ := h1
  simp only [List.mem_singleton] at hmem
  subst hmem
  simp at hobj

/-- C3 amended: `update(maxAge, recursive=True)` updates the element itself
(from its own source if non-empty, else from the nearest ancestor source
found by `find_source`), and then visits every `id_short`-indexed child with
the internal direct-source flag: each child (and descendant) event updates
only from the own non-empty source of the object, with itself as store and an
empty relative path — a child with an empty source is not separately updated
and performs no parent-chain walk. -/
theorem C3_update_children_own_source_only (g : Graph) (reg : List (String × String))
    (fuel i : Nat) (evs : List Event)
    (h : Referable.update g reg fuel i = .ok evs) :
    ∃ own kids, evs = own ++ kids ∧
      directSourceTrace g reg .updateObject fuel
        (if (g.objs i).isNamespace then childIds (g.objs i) else []) = .ok kids ∧
      (∀ ev ∈ kids, ev.op = .updateObject ∧ ev.store = ev.obj ∧ ev.relative_path = [] ∧
        (g.objs ev.obj).source ≠ "" ∧
        get_backend reg (g.objs ev.obj).source = .ok ev.backend) ∧
      ((g.objs i).source ≠ "" → ∃ b, get_backend reg (g.objs i).source = .ok b ∧
        own = [⟨b, .updateObject, i, i, []⟩]) ∧
      ((g.objs i).source = "" →
        (∀ st path, Referable.find_source g fuel i [(g.objs i).id_short] = some (st, path) →
          ∃ b, get_backend reg (g.objs st).source = .ok b ∧
            own = [⟨b, .updateObject, i, st, path⟩]) ∧
        (Referable.find_source g fuel i [(g.objs i).id_short] = none → own = [])) := by
  simp only [Referable.update] at h
  by_cases hsrc : (g.objs i).source = ""
  · rw [if_neg (fun hc => hc hsrc)] at h
    cases hfs : Referable.find_source g fuel i [(g.objs i).id_short] with
    | some stp =>
      obtain ⟨st, path⟩ := stp
      simp only [hfs] at h
      cases hb : get_backend reg (g.objs st).source with
      | error e1 => simp only [hb] at h; exact Except.noConfusion h
      | ok b =>
        simp only [hb] at h
        cases hkids : directSourceTrace g reg .updateObject fuel
            (if (g.objs i).isNamespace then childIds (g.objs i) else []) with
        | error e2 => simp only [hkids] at h; exact Except.noConfusion h
        | ok kids =>
          simp only [hkids] at h
          injection h with h'
          subst h'
          refine ⟨[⟨b, .updateObject, i, st, path⟩], kids, rfl, rfl,
            directSourceTrace_events g reg .updateObject fuel _ kids hkids,
            fun hc => absurd hsrc hc, fun _ => ⟨?_, ?_⟩⟩
          · intro st' path' hfs'
            cases hfs'
            exact ⟨b, hb, rfl⟩
          · intro hnone
            exact Option.noConfusion hnone
    | none =>
      simp only [hfs] at h
      cases hkids : directSourceTrace g reg .updateObject fuel
          (if (g.objs i).isNamespace then childIds (g.objs i) else []) with
      | error e2 => simp only [hkids] at h; exact Except.noConfusion h
      | ok kids =>
        simp only [hkids] at h
        injection h with h'
        subst h'
        refine ⟨[], kids, rfl, rfl,
          directSourceTrace_events g reg .updateObject fuel _ kids hkids,
          fun hc => absurd hsrc hc, fun _ => ⟨?_, fun _ => rfl⟩⟩
        intro st' path' hfs'
        exact Option.noConfusion hfs'
  · rw [if_pos hsrc] at h
    cases hb : get_backend reg (g.objs i).source with
    | error e1 => simp only [hb] at h; exact Except.noConfusion h
    | ok b =>
      simp only [hb] at h
      cases hkids : directSourceTrace g reg .updateObject fuel
          (if (g.objs i).isNamespace then childIds (g.objs i) else []) with
      | error e2 => simp only [hkids] at h; exact Except.noConfusion h
      | ok kids =>
        simp only [hkids] at h
        injection h with h'
        subst h'
        exact ⟨[⟨b, .updateObject, i, i, []⟩], kids, rfl, rfl,
          directSourceTrace_events g reg .updateObject fuel _ kids hkids,
          fun _ => ⟨b, rfl, rfl⟩, fun hc => absurd hc hsrc⟩

/-- Witness for the amended C3 at element `E` of `gEx2`: `E` updates from
its own source, and the only child event is the child updating from its own
source with itself as store and an empty path. -/
theorem C3_witness :
    ∃ own kids,
      ([⟨"BackendE", .updateObject, 2, 2, []⟩,
        ⟨"BackendC", .updateObject, 3, 3, []⟩] : List Event) = own ++ kids ∧
      directSourceTrace gEx2 regEx .updateObject 9
        (if (gEx2.objs 2).isNamespace then childIds (gEx2.objs 2) else []) = .ok kids ∧
      (∀ ev ∈ kids, ev.op = .updateObject ∧ ev.store = ev.obj ∧ ev.relative_path = [] ∧
        (gEx2.objs ev.obj).source ≠ "" ∧
        get_backend regEx (gEx2.objs ev.obj).source = .ok ev.backend) ∧
      ((gEx2.objs 2).source ≠ "" → ∃ b, get_backend regEx (gEx2.objs 2).source = .ok b ∧
        own = [⟨b, .updateObject, 2, 2, []⟩]) ∧
      ((gEx2.objs 2).source = "" →
        (∀ st path, Referable.find_source gEx2 9 2 [(gEx2.objs 2).id_short] =
            some (st, path) →
          ∃ b, get_backend regEx (gEx2.objs st).source = .ok b ∧
            own = [⟨b, .updateObject, 2, st, path⟩]) ∧
        (Referable.find_source gEx2 9 2 [(gEx2.objs 2).id_short] = none → own = [])) :=
  C3_update_children_own_source_only gEx2 regEx 9 2 _ (by decide)

theorem key_from_referable_nonroot (kec : String → Option KeyElements) (g : Graph) (c : Nat)
    (hid : (g.objs c).identification = none)
    (hsh : (g.objs c).id_short ≠ "")
    (hgr : keyElementOf kec (g.objs c) ≠ .GLOBAL_REFERENCE)
    (haas : keyElementOf kec (g.objs c) ≠ .ASSET_ADMINISTRATION_SHELL) :
    Key.from_referable kec g c = .ok (keyOfNode kec g c) := by
  simp only [Key.from_referable, keyOfNode, hid]
  unfold Key.init
  rw [if_neg hsh]
  rw [if_neg (fun hc => hgr hc.1)]
  rw [if_neg (fun hc => haas hc.1)]
  rfl

theorem keyTypeOfIdentifierType_not_local (t : IdentifierType) :
    ¬ keyTypeOfIdentifierType t ∈ LOCAL_KEY_TYPES := by
  cases t <;> decide

theorem key_from_referable_root (kec : String → Option KeyElements) (g : Graph)
    (r : Nat) (ident : Identifier)
    (hid : (g.objs r).identification = some ident)
    (hnz : ident.id ≠ "") :
    Key.from_referable kec g r = .ok (keyOfNode kec g r) := by
  simp only [Key.from_referable, keyOfNode, hid]
  unfold Key.init
  rw [if_neg hnz]
  rw [if_neg (fun hc => keyTypeOfIdentifierType_not_local ident.id_type hc.2)]
  rw [if_neg (fun hc => keyTypeOfIdentifierType_not_local ident.id_type hc.2)]
  rfl

theorem keyOfNode_root_identifier (kec : String → Option KeyElements) (g : Graph)
    (r : Nat) (ident : Identifier)
    (hid : (g.objs r).identification = some ident) :
    (keyOfNode kec g r).get_identifier = some ident := by
  simp only [keyOfNode, hid]
  obtain ⟨idv, idt⟩ := ident
  cases idt <;> rfl

theorem keyOfNode_nonroot_local (kec : String → Option KeyElements) (g : Graph) (c : Nat)
    (hid : (g.objs c).identification = none) :
    (keyOfNode kec g c).get_identifier = none := by
  simp [keyOfNode, hid, Key.get_identifier, KeyType.is_local_key_type]

theorem upChain_dropLast_id_none (kec : String → Option KeyElements) (g : Graph) :
    ∀ chain, upChainB kec g chain = true →
      ∀ c ∈ chain.dropLast, (g.objs c).identification = none := by
  intro chain
  induction chain with
  | nil => intro _ c hc; simp at hc
  | cons c0 rest ih =>
    intro hch c hc
    cases rest with
    | nil => simp at hc
    | cons c1 rest2 =>
      simp only [upChainB, Bool.and_eq_true, decide_eq_true_eq] at hch
      obtain ⟨⟨⟨⟨⟨⟨⟨⟨hid, hpar⟩, hmro⟩, hns⟩, hget⟩, hsh⟩, hgr⟩, haas⟩, hch2⟩ := hch
      have hdrop : (c0 :: c1 :: rest2).dropLast = c0 :: (c1 :: rest2).dropLast := rfl
      rw [hdrop] at hc
      rcases List.mem_cons.mp hc with rfl | hc2
      · exact hid
      · exact ih hch2 c hc2

theorem lastIdentifierIndex_none (ks : List Key)
    (h : ∀ k ∈ ks, k.get_identifier = none) : lastIdentifierIndex ks = none := by
  induction ks with
  | nil => rfl
  | cons k rest ih =>
    unfold lastIdentifierIndex
    rw [ih fun k' hk' => h k' (List.mem_cons_of_mem _ hk')]
    rw [h k (List.mem_cons_self _ _)]
    rfl

theorem lastIdentifierIndex_cons_global (k : Key) (ks : List Key)
    (hk : k.get_identifier.isSome = true)
    (h : ∀ k' ∈ ks, k'.get_identifier = none) :
    lastIdentifierIndex (k :: ks) = some 0 := by
  unfold lastIdentifierIndex
  rw [lastIdentifierIndex_none ks h, hk]
  rfl

theorem fromReferableLoop_chain (kec : String → Option KeyElements) (g : Graph) :
    ∀ (chain : List Nat) (c : Nat) (acc : List Key) (fuel : Nat),
      upChainB kec g chain = true → chain.head? = some c → chain.length ≤ fuel →
      fromReferableLoop kec g fuel c acc =
        .ok ((acc ++ chain.map (keyOfNode kec g)).reverse) := by
  intro chain
  induction chain with
  | nil => intro c acc fuel hch; simp [upChainB] at hch
  | cons c0 rest ih =>
    intro c acc fuel hch hhead hfuel
    simp only [List.head?_cons, Option.some.injEq] at hhead
    subst hhead
    cases rest with
    | nil =>
      simp only [upChainB] at hch
      cases hid : (g.objs c0).identification with
      | none => rw [hid] at hch; cases hch
      | some ident =>
        rw [hid] at hch
        have hnz : ident.id ≠ "" := of_decide_eq_true hch
        obtain ⟨f, rfl⟩ : ∃ f, fuel = f + 1 :=
          ⟨fuel - 1, by simp only [List.length_cons, List.length_nil] at hfuel; omega⟩
        simp only [fromReferableLoop, key_from_referable_root kec g c0 ident hid hnz,
          hid, Option.isSome_some, if_true]
        rfl
    | cons c1 rest2 =>
      simp only [upChainB, Bool.and_eq_true, decide_eq_true_eq] at hch
      obtain ⟨⟨⟨⟨⟨⟨⟨⟨hid, hpar⟩, hmro⟩, hns⟩, hget⟩, hsh⟩, hgr⟩, haas⟩, hch2⟩ := hch
      obtain ⟨f, rfl⟩ : ∃ f, fuel = f + 1 :=
        ⟨fuel - 1, by simp only [List.length_cons] at hfuel; omega⟩
      simp only [fromReferableLoop,
        key_from_referable_nonroot kec g c0 hid hsh hgr haas, hid, hpar]
      rw [if_neg (by simp)]
      rw [if_pos hmro]
      rw [ih c1 (acc ++ [keyOfNode kec g c0]) f hch2 rfl
        (by simp only [List.length_cons] at hfuel ⊢; omega)]
      simp

theorem resolveWalk_append (g : Graph) :
    ∀ (ks : List Key) (k : Key) (item : Nat) (rk : List String),
      resolveWalk g (ks ++ [k]) item rk =
        match resolveWalk g ks item rk with
        | .error e => .error e
        | .ok mid =>
          if ¬ (g.objs mid).isNamespace then .error (.typeErrorNotNamespace rk)
          else
            match g.get_referable? mid k.value with
            | none => .error (.keyErrorIdShort k.value rk)
            | some nxt => .ok nxt := by
  intro ks
  induction ks with
  | nil => intro k item rk; rfl
  | cons k0 ks ih =>
    intro k item rk
    have hL : resolveWalk g ((k0 :: ks) ++ [k]) item rk =
        (if ¬ (g.objs item).isNamespace then Except.error (.typeErrorNotNamespace rk)
         else
           match g.get_referable? item k0.value with
           | none => Except.error (.keyErrorIdShort k0.value rk)
           | some nxt => resolveWalk g (ks ++ [k]) nxt rk) := rfl
    have hR : resolveWalk g (k0 :: ks) item rk =
        (if ¬ (g.objs item).isNamespace then Except.error (.typeErrorNotNamespace rk)
         else
           match g.get_referable? item k0.value with
           | none => Except.error (.keyErrorIdShort k0.value rk)
           | some nxt => resolveWalk g ks nxt rk) := rfl
    rw [hL, hR]
    by_cases hn : (g.objs item).isNamespace = true
    · rw [if_neg (fun hc => hc hn), if_neg (fun hc => hc hn)]
      cases hr : g.get_referable? item k0.value with
      | none => rfl
      | some nxt =>
        simp only [hr]
        exact ih k nxt rk
    · rw [if_pos hn, if_pos hn]

theorem resolveWalk_chain (kec : String → Option KeyElements) (g : Graph) :
    ∀ (chain : List Nat) (c root : Nat) (rk : List String),
      upChainB kec g chain = true → chain.head? = some c → chain.getLast? = some root →
      resolveWalk g ((chain.dropLast.map (keyOfNode kec g)).reverse) root rk = .ok c := by
  intro chain
  induction chain with
  | nil => intro c root rk hch; simp [upChainB] at hch
  | cons c0 rest ih =>
    intro c root rk hch hhead hlast
    simp only [List.head?_cons, Option.some.injEq] at hhead
    subst hhead
    cases rest with
    | nil =>
      simp only [List.getLast?_singleton, Option.some.injEq] at hlast
      subst hlast
      rfl
    | cons c1 rest2 =>
      simp only [upChainB, Bool.and_eq_true, decide_eq_true_eq] at hch
      obtain ⟨⟨⟨⟨⟨⟨⟨⟨hid, hpar⟩, hmro⟩, hns⟩, hget⟩, hsh⟩, hgr⟩, haas⟩, hch2⟩ := hch
      have hlast2 : (c1 :: rest2).getLast? = some root := by
        rw [List.getLast?_cons_cons] at hlast
        exact hlast
      have hwalk := ih c1 root rk hch2 rfl hlast2
      have hdrop : (c0 :: c1 :: rest2).dropLast = c0 :: (c1 :: rest2).dropLast := rfl
      rw [hdrop]
      simp only [List.map_cons, List.reverse_cons]
      rw [resolveWalk_append]
      simp only [hwalk]
      rw [if_neg (by simp [hns])]
      have hval : (keyOfNode kec g c0).value = (g.objs c0).id_short := by
        simp [keyOfNode, hid]
      rw [hval]
      simp only [hget]

theorem refType_mem_mro (kec : String → Option KeyElements) (mro : List String)
    (hR : "Referable" ∈ mro) :
    (firstKeyElementsClass kec mro).getD "Referable" ∈ mro := by
  unfold firstKeyElementsClass
  cases hf : mro.find? (fun t => (kec t).isSome) with
  | none => simpa using hR
  | some t => simpa using List.mem_of_find?_eq_some hf

/-- C1: the round trip. For an element reachable from an Identifiable root
through a chain of `id_short`-indexed Referable Namespaces (each child
resolving to itself inside its parent), with the root registered in the
provider, `AASReference.from_referable` succeeds and resolving the
constructed reference returns the very same object (the same heap
identity). -/
theorem C1_from_referable_resolve_roundtrip (kec : String → Option KeyElements)
    (g : Graph) (provider : Identifier → Option Nat) (chain : List Nat)
    (e root : Nat) (ident : Identifier) (fuel : Nat)
    (hchain : upChainB kec g chain = true)
    (hhead : chain.head? = some e)
    (hlast : chain.getLast? = some root)
    (hfuel : chain.length ≤ fuel)
    (hident : (g.objs root).identification = some ident)
    (hprov : provider ident = some root)
    (hmro : "Referable" ∈ (g.objs e).mro) :
    ∃ r, AASReference.from_referable kec g fuel e = .ok r ∧
         AASReference.resolve g provider r = .ok e := by
  have hloop := fromReferableLoop_chain kec g chain e [] fuel hchain hhead hfuel
  simp only [List.nil_append] at hloop
  refine ⟨⟨(chain.map (keyOfNode kec g)).reverse,
    (firstKeyElementsClass kec (g.objs e).mro).getD "Referable"⟩, ?_, ?_⟩
  · simp only [AASReference.from_referable, hloop, Except.map]
  · have hne : chain ≠ [] := by
      intro h0; rw [h0] at hhead; cases hhead
    have hgl : chain.getLast hne = root := by
      have hx := List.getLast?_eq_getLast chain hne
      rw [hx] at hlast
      injection hlast
    have hrev : (chain.map (keyOfNode kec g)).reverse =
        keyOfNode kec g root :: (chain.dropLast.map (keyOfNode kec g)).reverse := by
      conv_lhs => rw [show chain = chain.dropLast ++ [root] by
        rw [← hgl]; exact (List.dropLast_append_getLast hne).symm]
      simp
    have hglob : (keyOfNode kec g root).get_identifier = some ident :=
      keyOfNode_root_identifier kec g root ident hident
    have hlocals : ∀ k ∈ (chain.dropLast.map (keyOfNode kec g)).reverse,
        k.get_identifier = none := by
      intro k hk
      rw [List.mem_reverse] at hk
      obtain ⟨c, hc, rfl⟩ := List.mem_map.mp hk
      exact keyOfNode_nonroot_local kec g c (upChain_dropLast_id_none kec g chain hchain c hc)
    rw [hrev]
    simp only [AASReference.resolve]
    rw [if_neg (by simp)]
    rw [lastIdentifierIndex_cons_global _ _ (by rw [hglob]; rfl) hlocals]
    simp only [List.getD_cons_zero, hglob, hprov, List.drop_succ_cons, List.drop_zero]
    rw [resolveWalk_chain kec g chain e root _ hchain hhead hlast]
    show (if (firstKeyElementsClass kec (g.objs e).mro).getD "Referable" ∈ (g.objs e).mro
        then (Except.ok e : Except ResolveErr Nat)
        else Except.error (ResolveErr.unexpectedType e)) = Except.ok e
    rw [if_pos (refType_mem_mro kec (g.objs e).mro hmro)]

/-- Witness for C1: the concrete chain `Temp` inside `SM` inside the
registered Identifiable root of `gEx1` round-trips to the same object. -/
theorem C1_witness :
    ∃ r, AASReference.from_referable kecEx gEx1 9 2 = .ok r ∧
         AASReference.resolve gEx1 providerEx1 r = .ok 2 :=
  C1_from_referable_resolve_roundtrip kecEx gEx1 providerEx1 [2, 1, 0] 2 0
    ⟨"R1", .IRI⟩ 9 (by decide) (by decide) (by decide) (by decide) (by decide)
    (by decide) (by decide)

/-! Reconciliation helper lemmas. -/

theorem alookup_mem (k : AttrVal) (v : Nat) :
    ∀ l : List (AttrVal × Nat), alookup l k = some v → (k, v) ∈ l := by
  intro l
  induction l with
  | nil => intro h; exact Option.noConfusion h
  | cons p rest ih =>
    obtain ⟨k1, x1⟩ := p
    intro h
    simp only [alookup] at h
    by_cases hk : k1 = k
    · rw [if_pos hk] at h
      obtain rfl := Option.some.inj h
      cases hk
      exact List.mem_cons_self _ _
    · rw [if_neg hk] at h
      exact List.mem_cons_of_mem _ (ih h)

theorem alookup_eq_none (k : AttrVal) :
    ∀ l : List (AttrVal × Nat), alookup l k = none ↔ ¬ k ∈ l.map Prod.fst := by
  intro l
  induction l with
  | nil => simp [alookup]
  | cons p rest ih =>
    obtain ⟨k1, x1⟩ := p
    simp only [alookup, List.map_cons, List.mem_cons]
    by_cases hk : k1 = k
    · rw [if_pos hk]
      subst hk
      simp
    · rw [if_neg hk, ih]
      constructor
      · intro hn hc
        rcases hc with hc | hc
        · exact hk hc.symm
        · exact hn hc
      · intro hn hc
        exact hn (Or.inr hc)

theorem alookup_eq_of_mem (l : List (AttrVal × Nat)) (hk : (l.map Prod.fst).Nodup)
    (k : AttrVal) (v : Nat) (h : (k, v) ∈ l) : alookup l k = some v := by
  induction l with
  | nil => cases h
  | cons p rest ih =>
    obtain ⟨k1, x1⟩ := p
    simp only [List.map_cons, List.nodup_cons] at hk
    rcases List.mem_cons.mp h with h1 | h1
    · obtain ⟨rfl, rfl⟩ := Prod.mk.injEq k v k1 x1 ▸ h1
      simp [alookup]
    · simp only [alookup]
      by_cases hkk : k1 = k
      · exfalso
        subst hkk
        exact hk.1 (List.mem_map.mpr ⟨(k1, v), h1, rfl⟩)
      · rw [if_neg hkk]
        exact ih hk.2 h1

theorem alookup_append (k : AttrVal) (l1 l2 : List (AttrVal × Nat)) :
    alookup (l1 ++ l2) k = (alookup l1 k).or (alookup l2 k) := by
  induction l1 with
  | nil => rfl
  | cons p rest ih =>
    obtain ⟨k1, x1⟩ := p
    simp only [List.cons_append, alookup]
    by_cases hk : k1 = k
    · rw [if_pos hk, if_pos hk]
      rfl
    · rw [if_neg hk, if_neg hk]
      exact ih

theorem mem_map_nodup_inj {α β : Type} (f : α → β) (l : List α)
    (h : (l.map f).Nodup) {a b : α} (ha : a ∈ l) (hb : b ∈ l) (hf : f a = f b) :
    a = b :=
  List.inj_on_of_nodup_map h ha hb hf

theorem filter_true_of_mem {α : Type} {p : α → Bool} :
    ∀ l : List α, (∀ x ∈ l, p x = true) → l.filter p = l := by
  intro l
  induction l with
  | nil => intro _; rfl
  | cons a rest ih =>
    intro hp
    have ha := hp a (List.mem_cons_self _ _)
    simp only [List.filter_cons, ha, if_true]
    rw [ih (fun x hx => hp x (List.mem_cons_of_mem _ hx))]

theorem filter_congr_mem {α : Type} {p q : α → Bool} :
    ∀ l : List α, (∀ x ∈ l, p x = q x) → l.filter p = l.filter q := by
  intro l
  induction l with
  | nil => intro _; rfl
  | cons a rest ih =>
    intro hpq
    have ha := hpq a (List.mem_cons_self _ _)
    simp only [List.filter_cons, ha]
    rw [ih (fun x hx => hpq x (List.mem_cons_of_mem _ hx))]

theorem filter_filter_mine {α : Type} (p q : α → Bool) :
    ∀ l : List α, (l.filter p).filter q = l.filter (fun a => p a && q a) := by
  intro l
  induction l with
  | nil => rfl
  | cons a rest ih =>
    cases hp : p a <;> cases hq : q a <;>
      simp [List.filter_cons, hp, hq, ih]

theorem filter_of_map {α β : Type} (f : α → β) (p : β → Bool) :
    ∀ l : List α, (l.map f).filter p = (l.filter (fun a => p (f a))).map f := by
  intro l
  induction l with
  | nil => rfl
  | cons a rest ih =>
    cases hp : p (f a) <;> simp [List.filter_cons, hp, ih]

theorem aerase_eq_filter (k : AttrVal) :
    ∀ l : List (AttrVal × Nat), (l.map Prod.fst).Nodup →
      aerase l k = l.filter (fun q => !decide (q.1 = k)) := by
  intro l
  induction l with
  | nil => intro _; rfl
  | cons p rest ih =>
    obtain ⟨k1, x1⟩ := p
    intro hk
    simp only [List.map_cons, List.nodup_cons] at hk
    simp only [aerase, List.filter_cons]
    by_cases hkk : k1 = k
    · rw [if_pos hkk]
      subst hkk
      simp only [decide_True, Bool.not_true, Bool.false_eq_true, if_false]
      refine (filter_true_of_mem rest (fun q hq => ?_)).symm
      have hne : ¬ q.1 = k1 := fun hc => hk.1 (hc ▸ List.mem_map.mpr ⟨q, hq, rfl⟩)
      simp [hne]
    · rw [if_neg hkk]
      simp only [hkk, decide_False, Bool.not_false, if_true]
      exact congrArg (List.cons _) (ih hk.2)

theorem objs_upd_self (g : Graph) (i : Nat) (f : Obj → Obj) :
    (g.upd i f).objs i = f (g.objs i) := by
  unfold Graph.upd
  simp

theorem objs_upd_ne (g : Graph) (i : Nat) (f : Obj → Obj) (x : Nat) (h : ¬ x = i) :
    (g.upd i f).objs x = g.objs x := by
  unfold Graph.upd
  simp [h]

theorem setAt_of_nsSets (g : Graph) (o : Nat) (s : NsSet)
    (h : (g.objs o).nsSets = [s]) : g.setAt o 0 = s := by
  unfold Graph.setAt Graph.sets
  rw [h]
  rfl

theorem objs_updSet_single (g : Graph) (o : Nat) (f : NsSet → NsSet) (s : NsSet)
    (h : (g.objs o).nsSets = [s]) :
    (g.updSet o 0 f).objs o = { g.objs o with nsSets := [f s] } := by
  unfold Graph.updSet
  rw [objs_upd_self, h]
  rfl

theorem updFromWith_flat (F : Graph → Nat → Nat → Nat → Nat → Except UnfErr Graph)
    (g : Graph) (i j : Nat) (h : (g.objs j).nsSets = []) :
    updFromWith F g i j = .ok (g.upd i fun o => mergeScalars o (g.objs j)) := by
  simp only [updFromWith, h, List.length_nil, List.range_zero, List.foldlM_nil]
  rfl

theorem foldlM_cons_except {α : Type} (f : Graph → α → Except UnfErr Graph)
    (b : Graph) (a : α) (l : List α) :
    (a :: l).foldlM f b =
      match f b a with
      | .error e => .error e
      | .ok b2 => l.foldlM f b2 := by
  rw [List.foldlM_cons]
  cases f b a <;> rfl

theorem objs_updSet_ne (g : Graph) (o si : Nat) (f : NsSet → NsSet) (x : Nat)
    (h : ¬ x = o) : (g.updSet o si f).objs x = g.objs x := by
  unfold Graph.updSet
  exact objs_upd_ne _ _ _ _ h

theorem getattr_id_short (o : Obj) : o.getattr? "id_short" = some (.str o.id_short) := by
  unfold Obj.getattr?
  rw [if_pos rfl]

theorem remove_single_eval (g : Graph) (ownerId mId : Nat) (d : List (AttrVal × Nat))
    (cs : Bool) (k : AttrVal)
    (hset : (g.objs ownerId).nsSets = [⟨[("id_short", (d, cs))]⟩])
    (hne : ¬ mId = ownerId)
    (hfold : foldVal cs (.str (g.objs mId).id_short) = k)
    (hl : alookup d k = some mId) :
    ∃ g2, NamespaceSet.remove g ownerId 0 mId = (g2, none) ∧
      g2.objs mId = { g.objs mId with parent := none } ∧
      g2.objs ownerId = { g.objs ownerId with
        nsSets := [⟨[("id_short", (aerase d k, cs))]⟩] } ∧
      ∀ x, ¬ x = mId → ¬ x = ownerId → g2.objs x = g.objs x := by
  have hs : g.setAt ownerId 0 = ⟨[("id_short", (d, cs))]⟩ := setAt_of_nsSets _ _ _ hset
  have hscan : removeScan (g.objs mId) mId [("id_short", (d, cs))] = .ok true := by
    simp [removeScan, getattr_id_short, hfold, hl, Except.map]
  have hne2 : ¬ ownerId = mId := fun hc => hne hc.symm
  unfold NamespaceSet.remove
  simp only [hs, hscan]
  refine ⟨_, rfl, ?_, ?_, ?_⟩
  · rw [objs_updSet_ne _ _ _ _ _ hne, objs_upd_self]
  · have hset1 : ((g.upd mId fun o => { o with parent := none }).objs ownerId).nsSets =
        [⟨[("id_short", (d, cs))]⟩] := by
      rw [objs_upd_ne _ _ _ _ hne2]
      exact hset
    rw [objs_updSet_single _ _ _ _ hset1, objs_upd_ne _ _ _ _ hne2]
    have hid : ((g.upd mId fun o => { o with parent := none }).objs mId).id_short =
        (g.objs mId).id_short := by
      rw [objs_upd_self]
    simp [getattr_id_short, hid, hfold]
  · intro x hx1 hx2
    rw [objs_updSet_ne _ _ _ _ _ hx2, objs_upd_ne _ _ _ _ hx1]

theorem add_single_eval (g : Graph) (ownerId mId : Nat) (d : List (AttrVal × Nat))
    (cs : Bool) (k : AttrVal)
    (hset : (g.objs ownerId).nsSets = [⟨[("id_short", (d, cs))]⟩])
    (hne : ¬ mId = ownerId)
    (hpar : (g.objs mId).parent = none)
    (hfold : foldVal cs (.str (g.objs mId).id_short) = k)
    (hl : alookup d k = none) :
    ∃ g2, NamespaceSet.add g ownerId 0 mId = (g2, none) ∧
      g2.objs mId = { g.objs mId with parent := some ownerId } ∧
      g2.objs ownerId = { g.objs ownerId with
        nsSets := [⟨[("id_short", (d ++ [(k, mId)], cs))]⟩] } ∧
      ∀ x, ¬ x = mId → ¬ x = ownerId → g2.objs x = g.objs x := by
  have hsets : g.sets ownerId = [⟨[("id_short", (d, cs))]⟩] := by
    unfold Graph.sets
    rw [hset]
  have hscan : scanCollision (g.sets ownerId) (g.objs mId) = none := by
    rw [hsets]
    simp [scanCollision, scanCollisionAttr, getattr_id_short, hfold, hl]
  have hne2 : ¬ ownerId = mId := fun hc => hne hc.symm
  unfold NamespaceSet.add
  simp only [hscan]
  rw [if_neg (by simp [hpar])]
  have hset1 : ((g.upd mId fun o => { o with parent := some ownerId }).objs ownerId).nsSets =
      [⟨[("id_short", (d, cs))]⟩] := by
    rw [objs_upd_ne _ _ _ _ hne2]
    exact hset
  have hs1 : (g.upd mId fun o => { o with parent := some ownerId }).setAt ownerId 0 =
      ⟨[("id_short", (d, cs))]⟩ := setAt_of_nsSets _ _ _ hset1
  have hid : ((g.upd mId fun o => { o with parent := some ownerId }).objs mId).id_short =
      (g.objs mId).id_short := by
    rw [objs_upd_self]
  have hins : insertAll ((g.upd mId fun o => { o with parent := some ownerId }).objs mId)
      mId [("id_short", (d, cs))] = ([("id_short", (d ++ [(k, mId)], cs))], none) := by
    simp [insertAll, getattr_id_short, hid, hfold]
  simp only [hs1, hins]
  refine ⟨_, rfl, ?_, ?_, ?_⟩
  · rw [objs_updSet_ne _ _ _ _ _ hne, objs_upd_self]
  · rw [objs_updSet_single _ _ _ _ hset1, objs_upd_ne _ _ _ _ hne2]
  · intro x hx1 hx2
    rw [objs_updSet_ne _ _ _ _ _ hx2, objs_upd_ne _ _ _ _ hx1]

theorem unfPhase1With_cons_ref (upd : Graph → Nat → Nat → Except UnfErr Graph)
    (selfOwner : Nat) (h : Graph) (oo : Nat) (rest : List Nat)
    (d : List (AttrVal × Nat)) (cs : Bool)
    (hset : (h.objs selfOwner).nsSets = [⟨[("id_short", (d, cs))]⟩])
    (hmro : "Referable" ∈ (h.objs oo).mro) :
    unfPhase1With upd selfOwner 0 h (oo :: rest) =
      match alookup d (foldVal cs (.str (h.objs oo).id_short)) with
      | none =>
        match unfPhase1With upd selfOwner 0 h rest with
        | .error e => .error e
        | .ok r => .ok (r.1, oo :: r.2)
      | some matched =>
        match upd h matched oo with
        | .error e => .error e
        | .ok g2 =>
          match unfPhase1With upd selfOwner 0 g2 rest with
          | .error e => .error e
          | .ok r => .ok (r.1, r.2) := by
  have hs : h.setAt selfOwner 0 = ⟨[("id_short", (d, cs))]⟩ := setAt_of_nsSets _ _ _ hset
  simp only [unfPhase1With, hs]
  rw [if_pos hmro]
  simp only [slookup, if_true]
  cases halo : alookup d (foldVal cs (.str (h.objs oo).id_short)) with
  | none =>
    cases hrec : unfPhase1With upd selfOwner 0 h rest with
    | error e => simp [hrec]
    | ok r => simp [hrec]
  | some matched =>
    cases hupd : upd h matched oo with
    | error e => simp [hupd]
    | ok g2 =>
      cases hrec : unfPhase1With upd selfOwner 0 g2 rest with
      | error e => simp [hupd, hrec]
      | ok r => simp [hupd, hrec]

theorem unfPhase1With_spec (F : Graph → Nat → Nat → Nat → Nat → Except UnfErr Graph)
    (g0 : Graph) (selfOwner : Nat) (cs : Bool) (sb : List (AttrVal × Nat))
    (hkS : (sb.map Prod.fst).Nodup)
    (hiS : (sb.map Prod.snd).Nodup)
    (hSown : ¬ selfOwner ∈ sb.map Prod.snd) :
    ∀ (obs : List (AttrVal × Nat)) (h : Graph),
      (obs.map Prod.fst).Nodup →
      (∀ q ∈ obs, ¬ q.2 ∈ sb.map Prod.snd) →
      (∀ q ∈ obs, foldVal cs (.str ((g0.objs q.2).id_short)) = q.1 ∧
        "Referable" ∈ (g0.objs q.2).mro ∧ (g0.objs q.2).nsSets = []) →
      (∀ x, ¬ x ∈ sb.map Prod.snd → h.objs x = g0.objs x) →
      ((h.objs selfOwner).nsSets = [⟨[("id_short", (sb, cs))]⟩]) →
      ∃ h2, unfPhase1With (updFromWith F) selfOwner 0 h (obs.map Prod.snd)
          = .ok (h2, (obs.filter (fun q => (alookup sb q.1).isNone)).map Prod.snd) ∧
        (∀ x, ¬ x ∈ sb.map Prod.snd → h2.objs x = h.objs x) ∧
        ∀ p ∈ sb, (alookup obs p.1 = none → h2.objs p.2 = h.objs p.2) ∧
          ∀ j, alookup obs p.1 = some j →
            h2.objs p.2 = mergeScalars (h.objs p.2) (g0.objs j) := by
  intro obs
  induction obs with
  | nil =>
    intro h _ _ _ _ _
    refine ⟨h, rfl, fun x _ => rfl, fun p hp => ⟨fun _ => rfl, fun j hj => ?_⟩⟩
    exact Option.noConfusion hj
  | cons q obs ih =>
    intro h hkO hqids hqwf hinv hset
    simp only [List.map_cons, List.nodup_cons] at hkO
    obtain ⟨hfoldq, hmroq, hnsq0⟩ := hqwf q (List.mem_cons_self _ _)
    have hq2 : ¬ q.2 ∈ sb.map Prod.snd := hqids q (List.mem_cons_self _ _)
    have hmq : h.objs q.2 = g0.objs q.2 := hinv q.2 hq2
    have hstep := unfPhase1With_cons_ref (updFromWith F) selfOwner h q.2 (obs.map Prod.snd)
      sb cs hset (by rw [hmq]; exact hmroq)
    have hfold2 : foldVal cs (.str ((h.objs q.2).id_short)) = q.1 := by
      rw [hmq]
      exact hfoldq
    have hqids2 : ∀ q2 ∈ obs, ¬ q2.2 ∈ sb.map Prod.snd :=
      fun q2 hq => hqids q2 (List.mem_cons_of_mem _ hq)
    have hqwf2 : ∀ q2 ∈ obs, foldVal cs (.str ((g0.objs q2.2).id_short)) = q2.1 ∧
        "Referable" ∈ (g0.objs q2.2).mro ∧ (g0.objs q2.2).nsSets = [] :=
      fun q2 hq => hqwf q2 (List.mem_cons_of_mem _ hq)
    rw [List.map_cons, hstep, hfold2]
    cases halo : alookup sb q.1 with
    | none =>
      obtain ⟨h2, hrun, hunt, hmem⟩ := ih h hkO.2 hqids2 hqwf2 hinv hset
      refine ⟨h2, ?_, hunt, ?_⟩
      · simp only [hrun, List.filter_cons, halo, Option.isNone_none, if_true, List.map_cons]
      · intro p hp
        constructor
        · intro hnone
          simp only [alookup] at hnone
          by_cases hqp : q.1 = p.1
          · rw [if_pos hqp] at hnone
            exact Option.noConfusion hnone
          · rw [if_neg hqp] at hnone
            exact (hmem p hp).1 hnone
        · intro j hj
          simp only [alookup] at hj
          by_cases hqp : q.1 = p.1
          · exfalso
            rw [hqp] at halo
            rw [alookup_eq_none] at halo
            exact halo (List.mem_map.mpr ⟨p, hp, rfl⟩)
          · rw [if_neg hqp] at hj
            exact (hmem p hp).2 j hj
    | some i =>
      have hnsq : (h.objs q.2).nsSets = [] := by
        rw [hmq]
        exact hnsq0
      have hflat := updFromWith_flat F h i q.2 hnsq
      have hisb : (q.1, i) ∈ sb := alookup_mem _ _ _ halo
      have hiid : i ∈ sb.map Prod.snd := List.mem_map.mpr ⟨(q.1, i), hisb, rfl⟩
      have hinv1 : ∀ x, ¬ x ∈ sb.map Prod.snd →
          (h.upd i fun o => mergeScalars o (h.objs q.2)).objs x = g0.objs x := by
        intro x hx
        rw [objs_upd_ne _ _ _ _ (fun hc : x = i => hx (hc ▸ hiid))]
        exact hinv x hx
      have hset1 : ((h.upd i fun o => mergeScalars o (h.objs q.2)).objs selfOwner).nsSets =
          [⟨[("id_short", (sb, cs))]⟩] := by
        rw [objs_upd_ne _ _ _ _ (fun hc : selfOwner = i => hSown (hc ▸ hiid))]
        exact hset
      obtain ⟨h2, hrun, hunt, hmem⟩ :=
        ih (h.upd i fun o => mergeScalars o (h.objs q.2)) hkO.2 hqids2 hqwf2 hinv1 hset1
      refine ⟨h2, ?_, ?_, ?_⟩
      · simp only [hflat, hrun, List.filter_cons, halo, Option.isNone_some,
          Bool.false_eq_true, if_false]
      · intro x hx
        rw [hunt x hx]
        exact objs_upd_ne _ _ _ _ (fun hc : x = i => hx (hc ▸ hiid))
      · intro p hp
        constructor
        · intro hnone
          simp only [alookup] at hnone
          by_cases hqp : q.1 = p.1
          · rw [if_pos hqp] at hnone
            exact Option.noConfusion hnone
          · rw [if_neg hqp] at hnone
            have h2p := (hmem p hp).1 hnone
            rw [h2p]
            have hpi : ¬ p.2 = i := by
              intro hc
              have hpq : p = (q.1, i) :=
                mem_map_nodup_inj Prod.snd sb hiS hp hisb (by rw [hc])
              exact hqp ((congrArg Prod.fst hpq).symm)
            exact objs_upd_ne _ _ _ _ hpi
        · intro j hj
          simp only [alookup] at hj
          by_cases hqp : q.1 = p.1
          · rw [if_pos hqp] at hj
            obtain rfl := Option.some.inj hj
            have hlp : alookup sb p.1 = some p.2 := alookup_eq_of_mem sb hkS p.1 p.2 hp
            have hpi : p.2 = i := by
              rw [← hqp] at hlp
              exact Option.some.inj (hlp.symm.trans halo)
            have hno : alookup obs p.1 = none := by
              rw [alookup_eq_none, ← hqp]
              exact hkO.1
            have h2p := (hmem p hp).1 hno
            rw [h2p, hpi, objs_upd_self, hmq]
          · rw [if_neg hqp] at hj
            have h2p := (hmem p hp).2 j hj
            rw [h2p]
            have hpi : ¬ p.2 = i := by
              intro hc
              have hpq : p = (q.1, i) :=
                mem_map_nodup_inj Prod.snd sb hiS hp hisb (by rw [hc])
              exact hqp ((congrArg Prod.fst hpq).symm)
            rw [objs_upd_ne _ _ _ _ hpi]

theorem unfToRemove_single (g : Graph) (selfOwner otherOwner : Nat) (cs : Bool)
    (sb ob : List (AttrVal × Nat))
    (hs : (g.objs selfOwner).nsSets = [⟨[("id_short", (sb, cs))]⟩])
    (ho : (g.objs otherOwner).nsSets = [⟨[("id_short", (ob, cs))]⟩])
    (hfold : ∀ p ∈ sb, foldVal cs (.str ((g.objs p.2).id_short)) = p.1) :
    unfToRemove g selfOwner 0 otherOwner 0 =
      (sb.filter (fun p => (alookup ob p.1).isNone)).map Prod.snd := by
  have hs1 : g.setAt selfOwner 0 = ⟨[("id_short", (sb, cs))]⟩ := setAt_of_nsSets _ _ _ hs
  have ho1 : g.setAt otherOwner 0 = ⟨[("id_short", (ob, cs))]⟩ := setAt_of_nsSets _ _ _ ho
  unfold unfToRemove
  rw [hs1, ho1]
  simp only [List.map_cons, List.map_nil, List.filter_cons, List.filter_nil,
    decide_True, if_true, List.flatten_cons, List.flatten_nil, List.append_nil,
    getattr_id_short]
  rw [filter_of_map]
  exact congrArg (List.map Prod.snd)
    (filter_congr_mem sb (fun p hp => by rw [hfold p hp]))

theorem unfMoves_spec (selfOwner otherOwner : Nat) (cs : Bool)
    (hso : ¬ selfOwner = otherOwner) :
    ∀ (mv : List (AttrVal × Nat)) (h : Graph) (sba oba : List (AttrVal × Nat)),
      (mv.map Prod.fst).Nodup →
      (mv.map Prod.snd).Nodup →
      (∀ q ∈ mv, ¬ q.2 = selfOwner ∧ ¬ q.2 = otherOwner) →
      (∀ q ∈ mv, q ∈ oba) →
      (∀ q ∈ mv, alookup sba q.1 = none) →
      ((oba.map Prod.fst).Nodup) →
      (∀ q ∈ mv, foldVal cs (.str ((h.objs q.2).id_short)) = q.1) →
      ((h.objs selfOwner).nsSets = [⟨[("id_short", (sba, cs))]⟩]) →
      ((h.objs otherOwner).nsSets = [⟨[("id_short", (oba, cs))]⟩]) →
      ∃ h2, (mv.map Prod.snd).foldlM (unfMoveStep otherOwner 0 selfOwner 0) h = .ok h2 ∧
        h2.objs selfOwner = { h.objs selfOwner with
          nsSets := [⟨[("id_short", (sba ++ mv, cs))]⟩] } ∧
        h2.objs otherOwner = { h.objs otherOwner with
          nsSets := [⟨[("id_short", (oba.filter
            (fun r => !decide (r.1 ∈ mv.map Prod.fst)), cs))]⟩] } ∧
        (∀ q ∈ mv, h2.objs q.2 = { h.objs q.2 with parent := some selfOwner }) ∧
        (∀ x, ¬ x = selfOwner → ¬ x = otherOwner → ¬ x ∈ mv.map Prod.snd →
          h2.objs x = h.objs x) := by
  intro mv
  induction mv with
  | nil =>
    intro h sba oba _ _ _ _ _ _ _ hss hso2
    refine ⟨h, rfl, ?_, ?_, fun q hq => absurd hq (List.not_mem_nil q),
      fun x _ _ _ => rfl⟩
    · rw [List.append_nil, ← hss]
    · have hf : oba.filter
          (fun r => !decide (r.1 ∈ ([] : List (AttrVal × Nat)).map Prod.fst)) = oba := by
        apply filter_true_of_mem
        intro r _
        simp
      rw [hf, ← hso2]
  | cons q mv ih =>
    intro h sba oba hkM hiM hown hsub hkey hkOba hfoldM hss hso2
    simp only [List.map_cons, List.nodup_cons] at hkM hiM
    obtain ⟨hq_self, hq_other⟩ := hown q (List.mem_cons_self _ _)
    have hqoba : q ∈ oba := hsub q (List.mem_cons_self _ _)
    have hqkey : alookup sba q.1 = none := hkey q (List.mem_cons_self _ _)
    have hqfold : foldVal cs (.str ((h.objs q.2).id_short)) = q.1 :=
      hfoldM q (List.mem_cons_self _ _)
    have hlq : alookup oba q.1 = some q.2 :=
      alookup_eq_of_mem oba hkOba q.1 q.2 (by rw [Prod.mk.eta]; exact hqoba)
    obtain ⟨grm, hrm, hrm_m, hrm_o, hrm_unt⟩ :=
      remove_single_eval h otherOwner q.2 oba cs q.1 hso2 hq_other hqfold hlq
    have hos : ¬ otherOwner = selfOwner := fun hc => hso hc.symm
    have hso_q : ¬ selfOwner = q.2 := fun hc => hq_self hc.symm
    have hoo_q : ¬ otherOwner = q.2 := fun hc => hq_other hc.symm
    have hset_s_grm : (grm.objs selfOwner).nsSets = [⟨[("id_short", (sba, cs))]⟩] := by
      rw [hrm_unt selfOwner hso_q hso]
      exact hss
    have hpar_grm : (grm.objs q.2).parent = none := by
      rw [hrm_m]
    have hfold_grm : foldVal cs (.str ((grm.objs q.2).id_short)) = q.1 := by
      rw [hrm_m]
      exact hqfold
    obtain ⟨gad, had, had_m, had_o, had_unt⟩ :=
      add_single_eval grm selfOwner q.2 sba cs q.1 hset_s_grm hq_self hpar_grm
        hfold_grm hqkey
    have hstep : unfMoveStep otherOwner 0 selfOwner 0 h q.2 = .ok gad := by
      unfold unfMoveStep
      simp only [hrm, had]
    have haer : aerase oba q.1 = oba.filter (fun r => !decide (r.1 = q.1)) :=
      aerase_eq_filter q.1 oba hkOba
    have hmvne : ∀ q2 ∈ mv, ¬ q2.2 = q.2 := by
      intro q2 hq2 hc
      exact hiM.1 (hc ▸ List.mem_map.mpr ⟨q2, hq2, rfl⟩)
    have hmvkne : ∀ q2 ∈ mv, ¬ q2.1 = q.1 := by
      intro q2 hq2 hc
      exact hkM.1 (hc ▸ List.mem_map.mpr ⟨q2, hq2, rfl⟩)
    have hgad_unt : ∀ x, ¬ x = q.2 → ¬ x = selfOwner → ¬ x = otherOwner →
        gad.objs x = h.objs x := by
      intro x hxq hxs hxo
      rw [had_unt x hxq hxs, hrm_unt x hxq hxo]
    obtain ⟨h2, hrun, h2ss, h2so, h2mem, h2unt⟩ :=
      ih gad (sba ++ [(q.1, q.2)]) (oba.filter (fun r => !decide (r.1 = q.1)))
        hkM.2 hiM.2
        (fun q2 hq2 => hown q2 (List.mem_cons_of_mem _ hq2))
        (fun q2 hq2 => List.mem_filter.mpr
          ⟨hsub q2 (List.mem_cons_of_mem _ hq2), by simp [hmvkne q2 hq2]⟩)
        (fun q2 hq2 => by
          rw [alookup_append, hkey q2 (List.mem_cons_of_mem _ hq2)]
          simp only [alookup, if_neg (fun hc : q.1 = q2.1 => hmvkne q2 hq2 hc.symm)]
          rfl)
        (List.Nodup.sublist ((List.filter_sublist _).map Prod.fst) hkOba)
        (fun q2 hq2 => by
          rw [hgad_unt q2.2 (hmvne q2 hq2) (hown q2 (List.mem_cons_of_mem _ hq2)).1
            (hown q2 (List.mem_cons_of_mem _ hq2)).2]
          exact hfoldM q2 (List.mem_cons_of_mem _ hq2))
        (by rw [had_o])
        (by
          rw [had_unt otherOwner hoo_q hos, hrm_o, haer])
    refine ⟨h2, ?_, ?_, ?_, ?_, ?_⟩
    · rw [List.map_cons, foldlM_cons_except]
      simp only [hstep]
      exact hrun
    · rw [h2ss, had_o, hrm_unt selfOwner hso_q hso]
      rw [List.append_assoc, List.singleton_append, Prod.mk.eta]
    · rw [h2so, had_unt otherOwner hoo_q hos, hrm_o]
      have hfilters : (oba.filter (fun r => !decide (r.1 = q.1))).filter
            (fun r => !decide (r.1 ∈ mv.map Prod.fst)) =
          oba.filter (fun r => !decide (r.1 ∈ (q :: mv).map Prod.fst)) := by
        rw [filter_filter_mine]
        apply filter_congr_mem
        intro r _
        by_cases h1 : r.1 = q.1 <;> by_cases h2 : r.1 ∈ mv.map Prod.fst <;>
          simp [h1, h2, List.mem_cons]
      rw [hfilters]
    · intro q2 hq2
      rcases List.mem_cons.mp hq2 with rfl | hq2mv
      · rw [h2unt q2.2 hq_self hq_other hiM.1, had_m, hrm_m]
      · rw [h2mem q2 hq2mv,
          hgad_unt q2.2 (hmvne q2 hq2mv) (hown q2 (List.mem_cons_of_mem _ hq2mv)).1
            (hown q2 (List.mem_cons_of_mem _ hq2mv)).2]
    · intro x hx1 hx2 hx3
      simp only [List.map_cons, List.mem_cons] at hx3
      obtain ⟨hxq, hxmv⟩ := not_or.mp hx3
      rw [h2unt x hx1 hx2 hxmv, hgad_unt x hxq hx1 hx2]

theorem unfRemovals_spec (selfOwner : Nat) (cs : Bool) :
    ∀ (rm : List (AttrVal × Nat)) (h : Graph) (sba : List (AttrVal × Nat)),
      (rm.map Prod.fst).Nodup →
      (rm.map Prod.snd).Nodup →
      (∀ p ∈ rm, ¬ p.2 = selfOwner) →
      (∀ p ∈ rm, p ∈ sba) →
      ((sba.map Prod.fst).Nodup) →
      (∀ p ∈ rm, foldVal cs (.str ((h.objs p.2).id_short)) = p.1) →
      ((h.objs selfOwner).nsSets = [⟨[("id_short", (sba, cs))]⟩]) →
      ∃ h2, (rm.map Prod.snd).foldlM (unfRemoveStep selfOwner 0) h = .ok h2 ∧
        h2.objs selfOwner = { h.objs selfOwner with
          nsSets := [⟨[("id_short", (sba.filter
            (fun r => !decide (r.1 ∈ rm.map Prod.fst)), cs))]⟩] } ∧
        (∀ p ∈ rm, h2.objs p.2 = { h.objs p.2 with parent := none }) ∧
        (∀ x, ¬ x = selfOwner → ¬ x ∈ rm.map Prod.snd → h2.objs x = h.objs x) := by
  intro rm
  induction rm with
  | nil =>
    intro h sba _ _ _ _ _ _ hss
    refine ⟨h, rfl, ?_, fun p hp => absurd hp (List.not_mem_nil p), fun x _ _ => rfl⟩
    have hf : sba.filter
        (fun r => !decide (r.1 ∈ ([] : List (AttrVal × Nat)).map Prod.fst)) = sba := by
      apply filter_true_of_mem
      intro r _
      simp
    rw [hf, ← hss]
  | cons p rm ih =>
    intro h sba hkR hiR hown hsub hkSba hfoldR hss
    simp only [List.map_cons, List.nodup_cons] at hkR hiR
    have hp_self : ¬ p.2 = selfOwner := hown p (List.mem_cons_self _ _)
    have hpsba : p ∈ sba := hsub p (List.mem_cons_self _ _)
    have hpfold : foldVal cs (.str ((h.objs p.2).id_short)) = p.1 :=
      hfoldR p (List.mem_cons_self _ _)
    have hlp : alookup sba p.1 = some p.2 :=
      alookup_eq_of_mem sba hkSba p.1 p.2 (by rw [Prod.mk.eta]; exact hpsba)
    obtain ⟨grm, hrm, hrm_m, hrm_o, hrm_unt⟩ :=
      remove_single_eval h selfOwner p.2 sba cs p.1 hss hp_self hpfold hlp
    have hstep : unfRemoveStep selfOwner 0 h p.2 = .ok grm := by
      unfold unfRemoveStep
      simp only [hrm]
    have haer : aerase sba p.1 = sba.filter (fun r => !decide (r.1 = p.1)) :=
      aerase_eq_filter p.1 sba hkSba
    have hrmne : ∀ p2 ∈ rm, ¬ p2.2 = p.2 := by
      intro p2 hp2 hc
      exact hiR.1 (hc ▸ List.mem_map.mpr ⟨p2, hp2, rfl⟩)
    have hrmkne : ∀ p2 ∈ rm, ¬ p2.1 = p.1 := by
      intro p2 hp2 hc
      exact hkR.1 (hc ▸ List.mem_map.mpr ⟨p2, hp2, rfl⟩)
    obtain ⟨h2, hrun, h2ss, h2mem, h2unt⟩ :=
      ih grm (sba.filter (fun r => !decide (r.1 = p.1)))
        hkR.2 hiR.2
        (fun p2 hp2 => hown p2 (List.mem_cons_of_mem _ hp2))
        (fun p2 hp2 => List.mem_filter.mpr
          ⟨hsub p2 (List.mem_cons_of_mem _ hp2), by simp [hrmkne p2 hp2]⟩)
        (List.Nodup.sublist ((List.filter_sublist _).map Prod.fst) hkSba)
        (fun p2 hp2 => by
          rw [hrm_unt p2.2 (hrmne p2 hp2) (hown p2 (List.mem_cons_of_mem _ hp2))]
          exact hfoldR p2 (List.mem_cons_of_mem _ hp2))
        (by rw [hrm_o, haer])
    refine ⟨h2, ?_, ?_, ?_, ?_⟩
    · rw [List.map_cons, foldlM_cons_except]
      simp only [hstep]
      exact hrun
    · rw [h2ss, hrm_o]
      have hfilters : (sba.filter (fun r => !decide (r.1 = p.1))).filter
            (fun r => !decide (r.1 ∈ rm.map Prod.fst)) =
          sba.filter (fun r => !decide (r.1 ∈ (p :: rm).map Prod.fst)) := by
        rw [filter_filter_mine]
        apply filter_congr_mem
        intro r _
        by_cases h1 : r.1 = p.1 <;> by_cases h2 : r.1 ∈ rm.map Prod.fst <;>
          simp [h1, h2, List.mem_cons]
      rw [haer, hfilters]
    · intro p2 hp2
      rcases List.mem_cons.mp hp2 with rfl | hp2rm
      · rw [h2unt p2.2 hp_self hiR.1, hrm_m]
      · rw [h2mem p2 hp2rm,
          hrm_unt p2.2 (hrmne p2 hp2rm) (hown p2 (List.mem_cons_of_mem _ hp2rm))]
    · intro x hx1 hx3
      simp only [List.map_cons, List.mem_cons] at hx3
      obtain ⟨hxp, hxrm⟩ := not_or.mp hx3
      rw [h2unt x hx1 hxrm, hrm_unt x hxp hx1]

/-- C4 counterexample: after `update_nss_from` on the example of the spec
(`self = {a(x, v=1)}`, `other = {a'(x, v=2), b(y)}`), `other` does not end
empty — the matched element `a'` remains inside it. -/
theorem C4_counterexample :
    (NamespaceSet.update_nss_from (gEx4 1 2 7) 0 0 1 0).map
        (fun g' => (g'.setAt 1 0).memberIds) = .ok [3] ∧
    ¬ (NamespaceSet.update_nss_from (gEx4 1 2 7) 0 0 1 0).map
        (fun g' => (g'.setAt 1 0).memberIds) = .ok [] := by
  decide

theorem update_nss_from_unfold (g : Graph) (selfOwner selfSi otherOwner otherSi : Nat) :
    NamespaceSet.update_nss_from g selfOwner selfSi otherOwner otherSi =
      match unfPhase1With
          (updFromWith fun h a b c d => updateNssFromFuel unfFuelSupply h a b c d)
          selfOwner selfSi g ((g.setAt otherOwner otherSi).memberIds) with
      | .error e => .error e
      | .ok r1 =>
        match r1.2.foldlM (unfMoveStep otherOwner otherSi selfOwner selfSi) r1.1 with
        | .error e => .error e
        | .ok g2 =>
          (unfToRemove r1.1 selfOwner selfSi otherOwner otherSi).foldlM
            (unfRemoveStep selfOwner selfSi) g2 := rfl

/-- C4 amended: for every pair of NamespaceSets `self` and `other` that are
each the only set of their namespace and index the single attribute `id_short`
with one shared case-sensitivity, over flat `Referable` elements (no nested
`NamespaceSet`-valued attributes) with consistent index entries and pairwise
distinct objects and keys, `update_nss_from(other)` succeeds and leaves `self`
holding exactly the attribute-value set `other` had: a member of `self`
matched (case-folded) by an element of `other` keeps its object identity,
parent and namespace sets while its remaining fields are merged from that
element; an unmatched element of `other` is moved — the same object,
re-parented — into `self`; a member of `self` with no corresponding value in
`other` is removed from `self` and detached; but `other` does not end empty:
its matched elements are never removed from it, so `other` ends holding
exactly its matched elements. -/
theorem C4_reconciliation (g : Graph) (selfOwner otherOwner : Nat) (cs : Bool)
    (sb ob : List (AttrVal × Nat))
    (hS : (g.objs selfOwner).nsSets = [⟨[("id_short", (sb, cs))]⟩])
    (hO : (g.objs otherOwner).nsSets = [⟨[("id_short", (ob, cs))]⟩])
    (hids : (selfOwner :: otherOwner :: (sb.map Prod.snd ++ ob.map Prod.snd)).Nodup)
    (hkS : (sb.map Prod.fst).Nodup)
    (hkO : (ob.map Prod.fst).Nodup)
    (hwS : ∀ p ∈ sb, foldVal cs (.str ((g.objs p.2).id_short)) = p.1)
    (hwO : ∀ q ∈ ob, foldVal cs (.str ((g.objs q.2).id_short)) = q.1 ∧
      "Referable" ∈ (g.objs q.2).mro ∧ (g.objs q.2).nsSets = []) :
    ∃ g3, NamespaceSet.update_nss_from g selfOwner 0 otherOwner 0 = .ok g3 ∧
      g3.objs selfOwner = { g.objs selfOwner with
        nsSets := [⟨[("id_short",
          (sb.filter (fun p => (alookup ob p.1).isSome) ++
           ob.filter (fun q => (alookup sb q.1).isNone), cs))]⟩] } ∧
      g3.objs otherOwner = { g.objs otherOwner with
        nsSets := [⟨[("id_short",
          (ob.filter (fun q => (alookup sb q.1).isSome), cs))]⟩] } ∧
      (∀ p ∈ sb, ∀ j, alookup ob p.1 = some j →
        g3.objs p.2 = mergeScalars (g.objs p.2) (g.objs j)) ∧
      (∀ p ∈ sb, alookup ob p.1 = none →
        g3.objs p.2 = { g.objs p.2 with parent := none }) ∧
      (∀ q ∈ ob, alookup sb q.1 = none →
        g3.objs q.2 = { g.objs q.2 with parent := some selfOwner }) ∧
      (∀ q ∈ ob, ∀ i, alookup sb q.1 = some i → g3.objs q.2 = g.objs q.2) ∧
      (∀ x, ¬ x = selfOwner → ¬ x = otherOwner →
        ¬ x ∈ sb.map Prod.snd → ¬ x ∈ ob.map Prod.snd → g3.objs x = g.objs x) := by
  simp only [List.nodup_cons, List.mem_cons, List.mem_append, List.nodup_append,
    not_or] at hids
  obtain ⟨⟨hso, hsS, hsO⟩, ⟨hoS, hoO⟩, hiS, hiO, hdisj⟩ := hids
  have hisnone : ∀ o : Option Nat, o.isNone = true → o = none := by
    intro o ho
    cases o with
    | none => rfl
    | some a => exact Bool.noConfusion ho
  have hone : ∀ q ∈ ob, ¬ q.2 ∈ sb.map Prod.snd := by
    intro q hq hc
    exact hdisj hc (List.mem_map.mpr ⟨q, hq, rfl⟩)
  have hobids : ∀ q ∈ ob, ¬ q.2 = selfOwner ∧ ¬ q.2 = otherOwner := by
    intro q hq
    constructor
    · intro hc
      exact hsO (hc ▸ List.mem_map.mpr ⟨q, hq, rfl⟩)
    · intro hc
      exact hoO (hc ▸ List.mem_map.mpr ⟨q, hq, rfl⟩)
  have hsbids : ∀ p ∈ sb, ¬ p.2 = selfOwner ∧ ¬ p.2 = otherOwner := by
    intro p hp
    constructor
    · intro hc
      exact hsS (hc ▸ List.mem_map.mpr ⟨p, hp, rfl⟩)
    · intro hc
      exact hoS (hc ▸ List.mem_map.mpr ⟨p, hp, rfl⟩)
  obtain ⟨g1, hP1, hP1unt, hP1mem⟩ :=
    unfPhase1With_spec (fun h a b c d => updateNssFromFuel unfFuelSupply h a b c d)
      g selfOwner cs sb hkS hiS hsS ob g hkO hone hwO (fun x _ => rfl) hS
  have hitems : (g.setAt otherOwner 0).memberIds = ob.map Prod.snd := by
    rw [setAt_of_nsSets _ _ _ hO]
    rfl
  have hg1S : g1.objs selfOwner = g.objs selfOwner := hP1unt selfOwner hsS
  have hg1O : g1.objs otherOwner = g.objs otherOwner := hP1unt otherOwner hoS
  have hg1ob : ∀ q ∈ ob, g1.objs q.2 = g.objs q.2 := fun q hq => hP1unt q.2 (hone q hq)
  have hg1S2 : (g1.objs selfOwner).nsSets = [⟨[("id_short", (sb, cs))]⟩] := by
    rw [hg1S]
    exact hS
  have hg1O2 : (g1.objs otherOwner).nsSets = [⟨[("id_short", (ob, cs))]⟩] := by
    rw [hg1O]
    exact hO
  have hfold1 : ∀ p ∈ sb, foldVal cs (.str ((g1.objs p.2).id_short)) = p.1 := by
    intro p hp
    cases halo : alookup ob p.1 with
    | none =>
      rw [(hP1mem p hp).1 halo]
      exact hwS p hp
    | some j =>
      rw [(hP1mem p hp).2 j halo]
      exact (hwO (p.1, j) (alookup_mem _ _ _ halo)).1
  have hTR : unfToRemove g1 selfOwner 0 otherOwner 0 =
      (sb.filter (fun p => (alookup ob p.1).isNone)).map Prod.snd :=
    unfToRemove_single g1 selfOwner otherOwner cs sb ob hg1S2 hg1O2 hfold1
  have hkMv : ((ob.filter (fun q => (alookup sb q.1).isNone)).map Prod.fst).Nodup :=
    List.Nodup.sublist ((List.filter_sublist _).map Prod.fst) hkO
  have hiMv : ((ob.filter (fun q => (alookup sb q.1).isNone)).map Prod.snd).Nodup :=
    List.Nodup.sublist ((List.filter_sublist _).map Prod.snd) hiO
  have hmv_sub : ∀ q ∈ ob.filter (fun q => (alookup sb q.1).isNone), q ∈ ob :=
    fun q hq => (List.mem_filter.mp hq).1
  have hmv_key : ∀ q ∈ ob.filter (fun q => (alookup sb q.1).isNone),
      alookup sb q.1 = none :=
    fun q hq => hisnone _ (List.mem_filter.mp hq).2
  obtain ⟨g2, hMv, hg2S, hg2O, hg2mem, hg2unt⟩ :=
    unfMoves_spec selfOwner otherOwner cs hso
      (ob.filter (fun q => (alookup sb q.1).isNone)) g1 sb ob
      hkMv hiMv
      (fun q hq => hobids q (hmv_sub q hq))
      hmv_sub hmv_key hkO
      (fun q hq => by
        rw [hg1ob q (hmv_sub q hq)]
        exact (hwO q (hmv_sub q hq)).1)
      hg1S2 hg1O2
  have hg2S2 : (g2.objs selfOwner).nsSets =
      [⟨[("id_short", (sb ++ ob.filter (fun q => (alookup sb q.1).isNone), cs))]⟩] := by
    rw [hg2S]
  have hkSba : ((sb ++ ob.filter (fun q => (alookup sb q.1).isNone)).map Prod.fst).Nodup := by
    rw [List.map_append]
    rw [List.nodup_append]
    refine ⟨hkS, hkMv, ?_⟩
    intro a haS haM
    obtain ⟨q, hq, rfl⟩ := List.mem_map.mp haM
    have := hmv_key q hq
    rw [alookup_eq_none] at this
    exact this haS
  have hsb_nmv : ∀ p ∈ sb,
      ¬ p.2 ∈ (ob.filter (fun q => (alookup sb q.1).isNone)).map Prod.snd := by
    intro p hp hc
    obtain ⟨q2, hq2, hqe⟩ := List.mem_map.mp hc
    exact hdisj (List.mem_map.mpr ⟨p, hp, rfl⟩)
      (hqe ▸ List.mem_map.mpr ⟨q2, (List.mem_filter.mp hq2).1, rfl⟩)
  have hkRm : ((sb.filter (fun p => (alookup ob p.1).isNone)).map Prod.fst).Nodup :=
    List.Nodup.sublist ((List.filter_sublist _).map Prod.fst) hkS
  have hiRm : ((sb.filter (fun p => (alookup ob p.1).isNone)).map Prod.snd).Nodup :=
    List.Nodup.sublist ((List.filter_sublist _).map Prod.snd) hiS
  have hrm_sub : ∀ p ∈ sb.filter (fun p => (alookup ob p.1).isNone),
      p ∈ sb ++ ob.filter (fun q => (alookup sb q.1).isNone) :=
    fun p hp => List.mem_append_left _ (List.mem_filter.mp hp).1
  have hg2sb : ∀ p ∈ sb.filter (fun p => (alookup ob p.1).isNone),
      g2.objs p.2 = g.objs p.2 := by
    intro p hp
    have hpsb := (List.mem_filter.mp hp).1
    rw [hg2unt p.2 (hsbids p hpsb).1 (hsbids p hpsb).2 (hsb_nmv p hpsb),
      (hP1mem p hpsb).1 (hisnone _ (List.mem_filter.mp hp).2)]
  obtain ⟨g3, hRm, hg3S, hg3mem, hg3unt⟩ :=
    unfRemovals_spec selfOwner cs
      (sb.filter (fun p => (alookup ob p.1).isNone)) g2
      (sb ++ ob.filter (fun q => (alookup sb q.1).isNone))
      hkRm hiRm
      (fun p hp => (hsbids p (List.mem_filter.mp hp).1).1)
      hrm_sub hkSba
      (fun p hp => by
        rw [hg2sb p hp]
        exact hwS p (List.mem_filter.mp hp).1)
      hg2S2
  have hrm_ids_sb : ∀ x, ¬ x ∈ sb.map Prod.snd →
      ¬ x ∈ (sb.filter (fun p => (alookup ob p.1).isNone)).map Prod.snd := by
    intro x hx hc
    obtain ⟨p2, hp2, hpe⟩ := List.mem_map.mp hc
    exact hx (hpe ▸ List.mem_map.mpr ⟨p2, (List.mem_filter.mp hp2).1, rfl⟩)
  have hmv_ids_ob : ∀ x, ¬ x ∈ ob.map Prod.snd →
      ¬ x ∈ (ob.filter (fun q => (alookup sb q.1).isNone)).map Prod.snd := by
    intro x hx hc
    obtain ⟨q2, hq2, hqe⟩ := List.mem_map.mp hc
    exact hx (hqe ▸ List.mem_map.mpr ⟨q2, (List.mem_filter.mp hq2).1, rfl⟩)
  rw [update_nss_from_unfold]
  simp only [hitems, hP1, hTR, hMv]
  refine ⟨g3, hRm, ?_, ?_, ?_, ?_, ?_, ?_, ?_⟩
  · rw [hg3S, hg2S, hg1S]
    have hlist : (sb ++ ob.filter (fun q => (alookup sb q.1).isNone)).filter
          (fun r => !decide (r.1 ∈
            (sb.filter (fun p => (alookup ob p.1).isNone)).map Prod.fst)) =
        sb.filter (fun p => (alookup ob p.1).isSome) ++
          ob.filter (fun q => (alookup sb q.1).isNone) := by
      rw [List.filter_append]
      have h1 : sb.filter (fun r => !decide (r.1 ∈
            (sb.filter (fun p => (alookup ob p.1).isNone)).map Prod.fst)) =
          sb.filter (fun p => (alookup ob p.1).isSome) := by
        apply filter_congr_mem
        intro p hp
        cases halo : alookup ob p.1 with
        | none =>
          have hmem : p.1 ∈ (sb.filter (fun p => (alookup ob p.1).isNone)).map Prod.fst :=
            List.mem_map.mpr ⟨p, List.mem_filter.mpr ⟨hp, by rw [halo]; rfl⟩, rfl⟩
          simp [hmem]
        | some j =>
          have hnot : ¬ p.1 ∈
              (sb.filter (fun p => (alookup ob p.1).isNone)).map Prod.fst := by
            intro hc
            obtain ⟨p2, hp2, hpe⟩ := List.mem_map.mp hc
            have hp2f := List.mem_filter.mp hp2
            rw [hpe] at hp2f
            rw [halo] at hp2f
            simp at hp2f
          simp [hnot]
      have h2 : (ob.filter (fun q => (alookup sb q.1).isNone)).filter
            (fun r => !decide (r.1 ∈
              (sb.filter (fun p => (alookup ob p.1).isNone)).map Prod.fst)) =
          ob.filter (fun q => (alookup sb q.1).isNone) := by
        apply filter_true_of_mem
        intro q hq
        have hqf := List.mem_filter.mp hq
        have hnot : ¬ q.1 ∈
            (sb.filter (fun p => (alookup ob p.1).isNone)).map Prod.fst := by
          intro hc
          obtain ⟨p2, hp2, hpe⟩ := List.mem_map.mp hc
          have hq_none : alookup sb q.1 = none := hisnone _ hqf.2
          rw [alookup_eq_none] at hq_none
          exact hq_none (hpe ▸ List.mem_map.mpr ⟨p2, (List.mem_filter.mp hp2).1, rfl⟩)
        simp [hnot]
      rw [h1, h2]
    rw [hlist]
  · have hoo_nrm : ¬ otherOwner ∈
        (sb.filter (fun p => (alookup ob p.1).isNone)).map Prod.snd :=
      hrm_ids_sb otherOwner hoS
    have hos : ¬ otherOwner = selfOwner := fun hc => hso hc.symm
    rw [hg3unt otherOwner hos hoo_nrm, hg2O, hg1O]
    have hlist2 : ob.filter (fun r => !decide (r.1 ∈
          (ob.filter (fun q => (alookup sb q.1).isNone)).map Prod.fst)) =
        ob.filter (fun q => (alookup sb q.1).isSome) := by
      apply filter_congr_mem
      intro q hq
      cases halo : alookup sb q.1 with
      | none =>
        have hmem : q.1 ∈ (ob.filter (fun q => (alookup sb q.1).isNone)).map Prod.fst :=
          List.mem_map.mpr ⟨q, List.mem_filter.mpr ⟨hq, by rw [halo]; rfl⟩, rfl⟩
        simp [hmem]
      | some i =>
        have hnot : ¬ q.1 ∈
            (ob.filter (fun q => (alookup sb q.1).isNone)).map Prod.fst := by
          intro hc
          obtain ⟨q2, hq2, hqe⟩ := List.mem_map.mp hc
          have hq2f := List.mem_filter.mp hq2
          rw [hqe] at hq2f
          rw [halo] at hq2f
          simp at hq2f
        simp [hnot]
    rw [hlist2]
  · intro p hp j hj
    have hpn_rm : ¬ p.2 ∈
        (sb.filter (fun p => (alookup ob p.1).isNone)).map Prod.snd := by
      intro hc
      obtain ⟨p2, hp2, hpe⟩ := List.mem_map.mp hc
      have hp2f := List.mem_filter.mp hp2
      have hp2e : p2 = p := mem_map_nodup_inj Prod.snd sb hiS hp2f.1 hp hpe
      rw [hp2e] at hp2f
      rw [hj] at hp2f
      simp at hp2f
    rw [hg3unt p.2 (hsbids p hp).1 hpn_rm,
      hg2unt p.2 (hsbids p hp).1 (hsbids p hp).2 (hsb_nmv p hp),
      (hP1mem p hp).2 j hj]
  · intro p hp halo
    have hp_rm : p ∈ sb.filter (fun p => (alookup ob p.1).isNone) :=
      List.mem_filter.mpr ⟨hp, by rw [halo]; rfl⟩
    rw [hg3mem p hp_rm, hg2unt p.2 (hsbids p hp).1 (hsbids p hp).2 (hsb_nmv p hp),
      (hP1mem p hp).1 halo]
  · intro q hq halo
    have hq_mv : q ∈ ob.filter (fun q => (alookup sb q.1).isNone) :=
      List.mem_filter.mpr ⟨hq, by rw [halo]; rfl⟩
    have hq_nrm : ¬ q.2 ∈
        (sb.filter (fun p => (alookup ob p.1).isNone)).map Prod.snd := by
      intro hc
      obtain ⟨p2, hp2, hpe⟩ := List.mem_map.mp hc
      exact hdisj (hpe ▸ List.mem_map.mpr ⟨p2, (List.mem_filter.mp hp2).1, rfl⟩)
        (List.mem_map.mpr ⟨q, hq, rfl⟩)
    rw [hg3unt q.2 (hobids q hq).1 hq_nrm, hg2mem q hq_mv, hg1ob q hq]
  · intro q hq i hi
    have hq_nmv : ¬ q.2 ∈
        (ob.filter (fun q => (alookup sb q.1).isNone)).map Prod.snd := by
      intro hc
      obtain ⟨q2, hq2, hqe⟩ := List.mem_map.mp hc
      have hq2f := List.mem_filter.mp hq2
      have hq2e : q2 = q := mem_map_nodup_inj Prod.snd ob hiO hq2f.1 hq hqe
      rw [hq2e] at hq2f
      rw [hi] at hq2f
      simp at hq2f
    have hq_nrm : ¬ q.2 ∈
        (sb.filter (fun p => (alookup ob p.1).isNone)).map Prod.snd := by
      intro hc
      obtain ⟨p2, hp2, hpe⟩ := List.mem_map.mp hc
      exact hdisj (hpe ▸ List.mem_map.mpr ⟨p2, (List.mem_filter.mp hp2).1, rfl⟩)
        (List.mem_map.mpr ⟨q, hq, rfl⟩)
    rw [hg3unt q.2 (hobids q hq).1 hq_nrm,
      hg2unt q.2 (hobids q hq).1 (hobids q hq).2 hq_nmv, hg1ob q hq]
  · intro x hx1 hx2 hx3 hx4
    rw [hg3unt x hx1 (hrm_ids_sb x hx3), hg2unt x hx1 hx2 (hmv_ids_ob x hx4),
      hP1unt x hx3]

/-- Witness for C4 at the extended reconciliation example `gEx4r`: the
matched `a` is merged in place keeping its identity and parent, the stale
`c` (`z`, no counterpart in `other`) is removed from `self` and detached —
the removal clause fires — the unmatched `b` is moved (same object,
re-parented) into `self`, and `other` ends holding exactly the matched
element `a-prime`. -/
theorem C4_witness :
    ∃ g3, NamespaceSet.update_nss_from gEx4r 0 0 1 0 = .ok g3 ∧
      (g3.objs 0).nsSets =
        [⟨[("id_short", ([(.str "X", 2), (.str "Y", 4)], false))]⟩] ∧
      (g3.objs 1).nsSets = [⟨[("id_short", ([(.str "X", 3)], false))]⟩] ∧
      g3.objs 2 = mergeScalars (gEx4r.objs 2) (gEx4r.objs 3) ∧
      g3.objs 5 = { gEx4r.objs 5 with parent := none } ∧
      g3.objs 4 = { gEx4r.objs 4 with parent := some 0 } ∧
      g3.objs 3 = gEx4r.objs 3 := by
  obtain ⟨g3, h1, h2, h3, h4, h5, h6, h7, h8⟩ :=
    C4_reconciliation gEx4r 0 1 false [(.str "X", 2), (.str "Z", 5)]
      [(.str "X", 3), (.str "Y", 4)] (by decide) (by decide) (by decide) (by decide)
      (by decide) (by decide) (by decide)
  refine ⟨g3, h1, ?_, ?_, ?_, ?_, ?_, ?_⟩
  · rw [h2]
    decide
  · rw [h3]
    decide
  · exact h4 (.str "X", 2) (by decide) 3 (by decide)
  · exact h5 (.str "Z", 5) (by decide) (by decide)
  · exact h6 (.str "Y", 4) (by decide) (by decide)
  · exact h7 (.str "X", 3) (by decide) 2 (by decide)

end Basyx
